import Mathlib

/-!
Verification of the delivery subsystem of `send_to_discord.py`
(`PreviewImageWithDiscord`): queueing/batching policy, size-aware
compression fallback, transport adapter, and temp-file housekeeping.

The embedding models the filesystem as an association list from paths to
file sizes in bytes, and the external world (HTTP endpoint, image
compression, JSON serialisation) as oracles consumed in call order.
Every effectful operation also returns the list of observable events it
performed (file creations/removals, compression invocations, network
posts), so that claims about "no network call", "cleanup always runs",
etc. can be stated about traces.
-/

namespace SendToDiscord

/-! ## Character-level string helpers

Models of the Python primitives used by the source for path handling:
`str.startswith`, `str.endswith`, `str.lower`, `os.path.basename`,
`os.path.dirname`, `os.path.join`, `os.path.splitext`. -/

/-- Bool test that the first char list is a prefix of the second. -/
def pre_of : List Char → List Char → Bool
  | [], _ => true
  | _ :: _, [] => false
  | x :: xs, y :: ys => x == y && pre_of xs ys

/-- `str.startswith`. -/
def starts_with (s pre : String) : Bool := pre_of pre.data s.data

/-- `str.endswith`. -/
def ends_with (s post : String) : Bool := pre_of post.data.reverse s.data.reverse

/-- `str.lower` (per-character lowering). -/
def to_lower (s : String) : String := String.mk (s.data.map Char.toLower)

theorem pre_of_self_append (a t : List Char) : pre_of a (a ++ t) = true := by
  induction a with
  | nil => rfl
  | cons x xs ih => simp [pre_of, ih]

theorem pre_of_singleton {x : Char} {b : List Char} (h : pre_of [x] b = true) :
    ∃ t, b = x :: t := by
  match b with
  | [] => simp [pre_of] at h
  | y :: ys =>
      refine ⟨ys, ?_⟩
      simp [pre_of] at h
      rw [h]

theorem ends_with_of_data (s post : String) (y : List Char)
    (h : s.data = y ++ post.data) : ends_with s post = true := by
  unfold ends_with
  rw [h, List.reverse_append]
  exact pre_of_self_append _ _

theorem starts_with_slash {b : String} (h : starts_with b "/" = true) :
    ∃ t, b.data = '/' :: t := by
  unfold starts_with at h
  exact pre_of_singleton h

theorem ends_with_slash {a : String} (h : ends_with a "/" = true) :
    ∃ y, a.data = y ++ ['/'] := by
  unfold ends_with at h
  obtain ⟨t, ht⟩ := pre_of_singleton h
  refine ⟨t.reverse, ?_⟩
  have := congrArg List.reverse ht
  simpa using this

/-- `os.path.basename`: everything after the last slash. -/
def basename (p : String) : String :=
  String.mk ((p.data.reverse.takeWhile (fun c => c != '/')).reverse)

/-- `os.path.dirname` (posix): everything up to the last slash, with
trailing slashes stripped unless the head is all slashes. -/
def dirname (p : String) : String :=
  let l := p.data
  let after := l.reverse.takeWhile (fun c => c != '/')
  if after.length = l.length then ""
  else
    let head := l.take (l.length - after.length)
    if head.all (fun c => c == '/') then String.mk head
    else String.mk ((head.reverse.dropWhile (fun c => c == '/')).reverse)

/-- `os.path.join` for two components (posix). -/
def path_join (a b : String) : String :=
  if starts_with b "/" then b
  else if a = "" || ends_with a "/" then a ++ b
  else a ++ "/" ++ b

/-- `os.path.splitext(s)[0]`: the part before the last dot, except that a
name whose part before the last dot is all dots is not split. -/
def splitext_base (s : String) : String :=
  match s.data.reverse.dropWhile (fun c => c != '.') with
  | [] => s
  | _ :: before =>
      if before.reverse.all (fun c => c == '.') then s else String.mk before.reverse

theorem mem_takeWhile_pred {α} (p : α → Bool) :
    ∀ (l : List α) (x : α), x ∈ l.takeWhile p → p x = true := by
  intro l
  induction l with
  | nil => intro x h; simp [List.takeWhile] at h
  | cons a as ih =>
      intro x h
      by_cases hpa : p a = true
      · rw [List.takeWhile_cons_of_pos hpa] at h
        rcases List.mem_cons.mp h with h1 | h2
        · rw [h1]; exact hpa
        · exact ih x h2
      · rw [List.takeWhile_cons_of_neg hpa] at h
        simp at h

theorem takeWhile_of_all {α} (p : α → Bool) :
    ∀ (l : List α), (∀ x ∈ l, p x = true) → l.takeWhile p = l := by
  intro l
  induction l with
  | nil => intro _; rfl
  | cons a as ih =>
      intro h
      rw [List.takeWhile_cons_of_pos (h a (List.mem_cons_self a as))]
      rw [ih (fun x hx => h x (List.mem_cons_of_mem a hx))]

theorem takeWhile_append_not {α} (p : α → Bool) (a : List α) (c : α) (b : List α)
    (ha : ∀ x ∈ a, p x = true) (hc : p c = false) :
    (a ++ c :: b).takeWhile p = a := by
  induction a with
  | nil => simp [List.takeWhile_cons_of_neg, hc]
  | cons x xs ih =>
      have hx : p x = true := ha x (List.mem_cons_self x xs)
      rw [List.cons_append, List.takeWhile_cons_of_pos hx]
      rw [ih (fun y hy => ha y (List.mem_cons_of_mem x hy))]

theorem dropWhile_head_false {α} (p : α → Bool) :
    ∀ (l : List α) (d : α) (t : List α), l.dropWhile p = d :: t → p d = false := by
  intro l
  induction l with
  | nil => intro d t h; simp [List.dropWhile] at h
  | cons a as ih =>
      intro d t h
      by_cases hpa : p a = true
      · rw [List.dropWhile_cons_of_pos hpa] at h
        exact ih d t h
      · rw [List.dropWhile_cons_of_neg hpa] at h
        cases h
        simpa using hpa

theorem basename_no_slash (p : String) : '/' ∉ (basename p).data := by
  unfold basename
  intro hmem
  simp only [String.mk] at hmem
  rw [List.mem_reverse] at hmem
  have := mem_takeWhile_pred (fun c => c != '/') _ _ hmem
  simp at this

theorem basename_of_no_slash (b : String) (h : '/' ∉ b.data) : basename b = b := by
  unfold basename
  have hall : ∀ x ∈ b.data.reverse, (fun c => c != '/') x = true := by
    intro x hx
    rw [List.mem_reverse] at hx
    simp only [bne_iff_ne, ne_eq, decide_eq_true_eq]
    intro hxe
    exact h (hxe ▸ hx)
  rw [takeWhile_of_all _ _ hall, List.reverse_reverse]

theorem basename_append_slash (y : List Char) (b : String) (h : '/' ∉ b.data) :
    basename (String.mk (y ++ '/' :: b.data)) = b := by
  unfold basename
  have hrev : (y ++ '/' :: b.data).reverse = b.data.reverse ++ '/' :: y.reverse := by
    rw [List.reverse_append, List.reverse_cons, List.append_assoc]
    simp
  simp only [String.mk]
  rw [hrev]
  have hall : ∀ x ∈ b.data.reverse, (fun c => c != '/') x = true := by
    intro x hx
    rw [List.mem_reverse] at hx
    simp only [bne_iff_ne, ne_eq, decide_eq_true_eq]
    intro hxe
    exact h (hxe ▸ hx)
  rw [takeWhile_append_not _ _ _ _ hall (by simp), List.reverse_reverse]

theorem data_ne_nil_of_ne_empty {s : String} (h : s ≠ "") : s.data ≠ [] := by
  intro hd
  exact h (String.ext (by rw [hd]))

theorem basename_path_join (a b : String) (hb : '/' ∉ b.data) (hne : b ≠ "") :
    basename (path_join a b) = b := by
  unfold path_join
  by_cases h1 : starts_with b "/" = true
  · obtain ⟨t, ht⟩ := starts_with_slash h1
    exact absurd (by rw [ht]; exact List.mem_cons_self _ _) hb
  · rw [if_neg h1]
    by_cases h2 : (a = "" || ends_with a "/") = true
    · rw [if_pos h2]
      rcases Bool.or_eq_true_iff.mp h2 with ha | ha
      · have hae : a = "" := by simpa using ha
        rw [hae]
        have : ("" ++ b) = b := by
          apply String.ext
          rw [String.data_append]
          rfl
        rw [this]
        exact basename_of_no_slash b hb
      · obtain ⟨y, hy⟩ := ends_with_slash ha
        have : (a ++ b) = String.mk (y ++ '/' :: b.data) := by
          apply String.ext
          rw [String.data_append, hy]
          simp
        rw [this]
        exact basename_append_slash y b hb
    · rw [if_neg h2]
      have : (a ++ "/" ++ b) = String.mk (a.data ++ '/' :: b.data) := by
        apply String.ext
        rw [String.data_append, String.data_append]
        simp
      rw [this]
      exact basename_append_slash a.data b hb

theorem path_join_ne_empty (a b : String) (hb : '/' ∉ b.data) (hne : b ≠ "") :
    path_join a b ≠ "" := by
  intro h
  have hbn := basename_path_join a b hb hne
  rw [h] at hbn
  exact hne (by simpa [basename] using hbn.symm)

theorem path_join_data (a b : String) : ∃ y, (path_join a b).data = y ++ b.data := by
  unfold path_join
  by_cases h1 : starts_with b "/" = true
  · exact ⟨[], by rw [if_pos h1]; rfl⟩
  · rw [if_neg h1]
    by_cases h2 : (a = "" || ends_with a "/") = true
    · exact ⟨a.data, by rw [if_pos h2, String.data_append]⟩
    · refine ⟨a.data ++ ['/'], ?_⟩
      rw [if_neg h2, String.data_append, String.data_append]

theorem splitext_base_cases (s : String) :
    splitext_base s = s ∨ ∃ t, s.data = (splitext_base s).data ++ '.' :: t := by
  cases hd : s.data.reverse.dropWhile (fun c => c != '.') with
  | nil =>
      left
      unfold splitext_base
      rw [hd]
  | cons d before =>
      have hsb : splitext_base s =
          if before.reverse.all (fun c => c == '.') then s
          else String.mk before.reverse := by
        unfold splitext_base
        rw [hd]
      by_cases hall : before.reverse.all (fun c => c == '.') = true
      · left; rw [hsb, if_pos hall]
      · right
        rw [hsb, if_neg hall]
        have hdot : d = '.' := by
          have := dropWhile_head_false (fun c => c != '.') _ _ _ hd
          simpa using this
        have hsplit : s.data.reverse =
            s.data.reverse.takeWhile (fun c => c != '.') ++ d :: before := by
          rw [← hd, List.takeWhile_append_dropWhile]
        have hrv := congrArg List.reverse hsplit
        rw [List.reverse_reverse] at hrv
        have hfinal : s.data = before.reverse ++
            '.' :: (s.data.reverse.takeWhile (fun c => c != '.')).reverse := by
          conv_lhs => rw [hrv]
          simp [hdot]
        exact ⟨(s.data.reverse.takeWhile (fun c => c != '.')).reverse, hfinal⟩

theorem splitext_base_append_ne (s t : String) (h1 : t.data.head? ≠ some '.')
    (h2 : t ≠ "") : splitext_base s ++ t ≠ s := by
  intro he
  have hdata : (splitext_base s).data ++ t.data = s.data := by
    rw [← String.data_append, he]
  rcases splitext_base_cases s with hc | ⟨u, hu⟩
  · rw [hc] at hdata
    have : t.data = [] := by
      have h0 : s.data ++ t.data = s.data ++ [] := by rw [hdata, List.append_nil]
      exact List.append_cancel_left h0
    exact data_ne_nil_of_ne_empty h2 this
  · rw [hu] at hdata
    have : t.data = '.' :: u := List.append_cancel_left hdata
    rw [this] at h1
    simp at h1

theorem splitext_base_no_slash (s : String) (h : '/' ∉ s.data) :
    '/' ∉ (splitext_base s).data := by
  rcases splitext_base_cases s with hc | ⟨u, hu⟩
  · rw [hc]; exact h
  · intro hmem
    exact h (hu ▸ List.mem_append_left _ hmem)

/-- The derived path produced by `compress_image`:
`os.path.join(os.path.dirname(p), splitext(basename(p))[0] + "_compressed.webp")`. -/
def compressed_path (image_path : String) : String :=
  path_join (dirname image_path)
    (splitext_base (basename image_path) ++ "_compressed.webp")

/-- The derived sidecar path:
`os.path.join(os.path.dirname(current), splitext(filename)[0] + "_workflow.json")`. -/
def workflow_path_of (current_path filename : String) : String :=
  path_join (dirname current_path) (splitext_base filename ++ "_workflow.json")

theorem compressed_name_no_slash (p : String) :
    '/' ∉ (splitext_base (basename p) ++ "_compressed.webp").data := by
  rw [String.data_append]
  intro hmem
  rcases List.mem_append.mp hmem with h | h
  · exact splitext_base_no_slash _ (basename_no_slash p) h
  · simp at h

theorem compressed_name_ne_empty (p : String) :
    splitext_base (basename p) ++ "_compressed.webp" ≠ "" := by
  intro h
  have := congrArg String.data h
  rw [String.data_append] at this
  simp at this

theorem compressed_path_ne (p : String) : compressed_path p ≠ p := by
  intro he
  have hb := basename_path_join (dirname p)
    (splitext_base (basename p) ++ "_compressed.webp")
    (compressed_name_no_slash p) (compressed_name_ne_empty p)
  change basename (compressed_path p) = _ at hb
  rw [he] at hb
  exact splitext_base_append_ne (basename p) "_compressed.webp"
    (by decide) (by decide) hb.symm

theorem compressed_path_ne_empty (p : String) : compressed_path p ≠ "" :=
  path_join_ne_empty _ _ (compressed_name_no_slash p) (compressed_name_ne_empty p)

theorem workflow_name_no_slash (p fn : String) (hfn : fn = basename p) :
    '/' ∉ (splitext_base fn ++ "_workflow.json").data := by
  rw [String.data_append]
  intro hmem
  rcases List.mem_append.mp hmem with h | h
  · exact splitext_base_no_slash _ (hfn ▸ basename_no_slash p) h
  · simp at h

theorem workflow_name_ne_empty (fn : String) :
    splitext_base fn ++ "_workflow.json" ≠ "" := by
  intro h
  have := congrArg String.data h
  rw [String.data_append] at this
  simp at this

theorem workflow_path_ne (p fn current : String) (hfn : fn = basename p) :
    workflow_path_of current fn ≠ p := by
  intro he
  have hb := basename_path_join (dirname current)
    (splitext_base fn ++ "_workflow.json")
    (workflow_name_no_slash p fn hfn) (workflow_name_ne_empty fn)
  change basename (workflow_path_of current fn) = _ at hb
  rw [he] at hb
  rw [hfn] at hb
  exact splitext_base_append_ne (basename p) "_workflow.json"
    (by decide) (by decide) hb.symm

theorem workflow_path_ne_empty (current fn : String) (p : String)
    (hfn : fn = basename p) : workflow_path_of current fn ≠ "" :=
  path_join_ne_empty _ _ (workflow_name_no_slash p fn hfn) (workflow_name_ne_empty fn)

/-! ## Data model

The filesystem is an association list from paths to sizes in bytes.
External effects are oracles consumed in call order:
* `net` — outcome of each `requests.post` (HTTP status, or an exception
  raised by the transport);
* `comp` — outcome of each `compress_image` body (the byte size of the
  WebP file it writes, or an exception from PIL);
* `json` — whether each `json.dump`-to-file succeeds. -/

/-- One multipart form field: field name, attached filename, MIME type,
and the path whose bytes were read as the content. -/
structure MPField where
  name : String
  fname : String
  mime : String
  src : String
deriving DecidableEq

/-- Observable actions of the subsystem. -/
inductive Event where
  | createFile : String → Event
  | removeFile : String → Event
  | compressCall : String → Event
  | singleAttempt : String → Event
  | batchFlush : Nat → Event
  | netPost : Bool → List MPField → Nat → Event
deriving DecidableEq

/-- Outcome of one `requests.post` call. -/
inductive NetOutcome where
  | status : Nat → NetOutcome
  | err : NetOutcome
deriving DecidableEq

/-- Outcome of one compression attempt. -/
inductive CompOutcome where
  | ok : Nat → CompOutcome
  | err : CompOutcome
deriving DecidableEq

/-- Filesystem plus the three external-effect oracles. -/
structure World where
  fs : List (String × Nat)
  net : List NetOutcome
  comp : List CompOutcome
  json : List Bool
deriving DecidableEq

def fsLookup : List (String × Nat) → String → Option Nat
  | [], _ => none
  | e :: t, p => if e.1 = p then some e.2 else fsLookup t p

def fsExists (fs : List (String × Nat)) (p : String) : Bool :=
  (fsLookup fs p).isSome

def fsRemove : List (String × Nat) → String → List (String × Nat)
  | [], _ => []
  | e :: t, p => if e.1 = p then fsRemove t p else e :: fsRemove t p

def fsInsert (fs : List (String × Nat)) (p : String) (n : Nat) : List (String × Nat) :=
  (p, n) :: fsRemove fs p

/-- `os.path.getsize`, totalised to 0 on a missing file. -/
def getsize (fs : List (String × Nat)) (p : String) : Nat :=
  (fsLookup fs p).getD 0

/-- `get_file_size_mb`: `os.path.getsize(file_path) / (1024 * 1024)`. -/
def get_file_size_mb (fs : List (String × Nat)) (p : String) : ℚ :=
  ((getsize fs p : ℚ)) / (1024 * 1024)

/-- The comparison `get_file_size_mb(path) > max_file_size_mb`, carried
out in exact integer arithmetic (`size/2^20 > mb ↔ mb.num·2^20 < size·mb.den`)
so that it evaluates; `size_mb_gt_iff` proves it equal to the rational
comparison the source writes. -/
def size_mb_gt (bytes : Nat) (mb : ℚ) : Bool :=
  mb.num * (1024 * 1024) < (bytes : Int) * (mb.den : Int)

/-- Configuration as loaded at startup (`__init__` + `config.ini`). -/
structure Config where
  webhook_url : String
  batch_size : Nat
  enable_fallback : Bool
  enable_compression : Bool
  compression_quality : Nat
  max_file_size_mb : ℚ
deriving DecidableEq

/-- One entry of `image_queue`: `(full_path, file, workflow_json)`. -/
structure QueuedItem where
  path : String
  filename : String
  workflow : Option String
deriving DecidableEq

/-- Mutable state of the node instance. -/
structure NodeState where
  image_queue : List QueuedItem
  last_status : String
deriving DecidableEq

/-- One entry of the UI `results` list. -/
structure UIResult where
  filename : String
  subfolder : String
  type : String
deriving DecidableEq

/-! ## Operations translated from the source -/

/-- `_get_mime_type`. -/
def get_mime_type (file_path : String) : String :=
  let ext := to_lower file_path
  if ends_with ext ".webp" then "image/webp"
  else if ends_with ext ".jpg" || ends_with ext ".jpeg" then "image/jpeg"
  else "image/png"

/-- One iteration of the loop in `_cleanup_temp_files`: delete `path`
when it is truthy, different from the original, and present; `OSError`
from `os.remove` is swallowed. -/
def cleanup_one : World → String → Option String → World × List Event
  | w, _, none => (w, [])
  | w, original, some q =>
      if q ≠ "" ∧ q ≠ original ∧ fsExists w.fs q = true then
        ({ w with fs := fsRemove w.fs q }, [Event.removeFile q])
      else (w, [])

/-- `_cleanup_temp_files(current_path, original_path, workflow_path)`. -/
def cleanup_temp_files (w : World) (current_path original_path : String)
    (workflow_path : Option String) : World × List Event :=
  let r1 := cleanup_one w original_path (some current_path)
  let r2 := cleanup_one r1.1 original_path workflow_path
  (r2.1, r1.2 ++ r2.2)

/-- `compress_image`: re-encode to WebP at `compressed_path`; on success
the derived file appears on disk, on a PIL error the exception
propagates to the caller (as `Except.error`). -/
def compress_image (w : World) (image_path : String) :
    Except Unit String × World × List Event :=
  let cp := compressed_path image_path
  match w.comp with
  | CompOutcome.ok size :: rest =>
      (Except.ok cp,
       { w with comp := rest, fs := fsInsert w.fs cp size },
       [Event.compressCall image_path, Event.createFile cp])
  | CompOutcome.err :: rest =>
      (Except.error (), { w with comp := rest }, [Event.compressCall image_path])
  | [] => (Except.error (), w, [Event.compressCall image_path])

/-- The mode-reconciliation step of `compress_image` (lines 92–98): which
PIL mode the image holds when it reaches `img.save(..., 'WEBP', ...)`. -/
def webp_convert_mode (mode : String) (has_transparency : Bool) : String :=
  if mode = "RGBA" ∨ mode = "LA" ∨ mode = "P" then
    if mode = "P" ∧ has_transparency = true then "RGBA"
    else if mode = "LA" then "RGBA"
    else mode
  else "RGB"

/-- `requests.post(webhook_url, files=fields, timeout=t)` with its
surrounding status check. Posting to an empty URL raises `MissingSchema`
before any network traffic, hence no `netPost` event; otherwise the next
`net` oracle entry is consumed and the call returns `status == 200`. -/
def do_post (w : World) (url : String) (isBatch : Bool) (fields : List MPField)
    (timeout : Nat) : Bool × World × List Event :=
  if url = "" then (false, w, [])
  else
    match w.net with
    | o :: rest =>
        (o == NetOutcome.status 200, { w with net := rest },
         [Event.netPost isBatch fields timeout])
    | [] => (false, w, [Event.netPost isBatch fields timeout])

/-- The `files` dict built by `_attempt_send_single`: the image under
field `file` and, when a truthy workflow path exists on disk, the
sidecar under field `file1`. -/
def single_fields (fs : List (String × Nat)) (image_path filename : String) :
    Option String → List MPField
  | none => [MPField.mk "file" filename (get_mime_type image_path) image_path]
  | some q =>
      if q ≠ "" ∧ fsExists fs q = true then
        [MPField.mk "file" filename (get_mime_type image_path) image_path,
         MPField.mk "file1" (basename q) "application/json" q]
      else [MPField.mk "file" filename (get_mime_type image_path) image_path]

/-- `_attempt_send_single(image_path, filename, workflow_path)`. A
`singleAttempt` event marks the call itself. Reading a missing image
file raises inside the `try`, which returns `False` with no post. -/
def attempt_send_single (cfg : Config) (w : World) (image_path filename : String)
    (workflow_path : Option String) : Bool × World × List Event :=
  let ev0 := [Event.singleAttempt filename]
  if fsExists w.fs image_path = false then (false, w, ev0)
  else
    let r := do_post w cfg.webhook_url false
      (single_fields w.fs image_path filename workflow_path) 30
    (r.1, r.2.1, ev0 ++ r.2.2)

/-- The compression block shared verbatim by `send_to_discord`
(lines 259–280) and `_attempt_send_single_for_batch` (lines 418–437):
compress when enabled and the file exceeds the threshold, then persist
the workflow sidecar next to the compressed copy; failures degrade to
the uncompressed original / no sidecar. Returns
`(current_path, workflow_path, world, events)`. -/
def apply_size_policy (cfg : Config) (w : World) (image_path filename : String)
    (workflow_json : Option String) : String × Option String × World × List Event :=
  if cfg.enable_compression = true ∧
      size_mb_gt (getsize w.fs image_path) cfg.max_file_size_mb = true then
    match compress_image w image_path with
    | (Except.ok cp, w1, evc) =>
        (match workflow_json with
         | some _ =>
             let wp := workflow_path_of cp filename
             (match w1.json with
              | true :: rest =>
                  (cp, some wp,
                   { w1 with json := rest, fs := fsInsert w1.fs wp 0 },
                   evc ++ [Event.createFile wp])
              | false :: rest => (cp, none, { w1 with json := rest }, evc)
              | [] => (cp, none, w1, evc))
         | none => (cp, none, w1, evc))
    | (Except.error _, w1, evc) => (image_path, none, w1, evc)
  else (image_path, none, w, [])

/-- `send_to_discord(image_path, filename, workflow_json)`. -/
def send_to_discord (cfg : Config) (st : NodeState) (w : World)
    (image_path filename : String) (workflow_json : Option String) :
    NodeState × World × List Event :=
  let st1 := { st with last_status := "📤 Sending..." }
  let pol := apply_size_policy cfg w image_path filename workflow_json
  let current_path := pol.1
  let workflow_path := pol.2.1
  let w1 := pol.2.2.1
  let ev1 := pol.2.2.2
  let att := attempt_send_single cfg w1 current_path filename workflow_path
  let success := att.1
  let w2 := att.2.1
  let ev2 := att.2.2
  let st2 := { st1 with last_status := if success then "✅ Sent" else "❌ Error" }
  let cl := cleanup_temp_files w2 current_path image_path workflow_path
  (st2, cl.1, ev1 ++ ev2 ++ cl.2)

/-- `_attempt_send_single_for_batch(image_path, filename, workflow_json)`. -/
def attempt_send_single_for_batch (cfg : Config) (w : World)
    (image_path filename : String) (workflow_json : Option String) :
    Bool × World × List Event :=
  let pol := apply_size_policy cfg w image_path filename workflow_json
  let current_path := pol.1
  let workflow_path := pol.2.1
  let w1 := pol.2.2.1
  let ev1 := pol.2.2.2
  let att := attempt_send_single cfg w1 current_path filename workflow_path
  let success := att.1
  let w2 := att.2.1
  let ev2 := att.2.2
  let cl := cleanup_temp_files w2 current_path image_path workflow_path
  (success, cl.1, ev1 ++ ev2 ++ cl.2)

/-- The loop of `_attempt_send_batch`: walk the queue accumulating the
total size (tracked in bytes; the source accumulates megabyte floats and
compares against 25, which is the same comparison), abandoning with
`False` if the running total passes the 25 MB Discord ceiling, and
collecting one `file{i}` field per item. A missing file raises inside
the `try` and likewise yields `False` before the post. -/
def build_batch_fields (fs : List (String × Nat)) :
    List QueuedItem → Nat → Nat → Option (List MPField)
  | [], _, _ => some []
  | it :: rest, i, total =>
      if fsExists fs it.path = false then none
      else
        let total1 := total + getsize fs it.path
        if 25 * 1024 * 1024 < total1 then none
        else
          match build_batch_fields fs rest (i + 1) total1 with
          | none => none
          | some l =>
              some (MPField.mk ("file" ++ toString i) it.filename
                (get_mime_type it.path) it.path :: l)

/-- `_attempt_send_batch()`. -/
def attempt_send_batch (cfg : Config) (queue : List QueuedItem) (w : World) :
    Bool × World × List Event :=
  match build_batch_fields w.fs queue 0 0 with
  | none => (false, w, [])
  | some fields => do_post w cfg.webhook_url true fields 60

/-- The fallback loop of `send_batch_to_discord`: per-item individual
sends, counting successes. -/
def fallback_loop (cfg : Config) :
    List QueuedItem → World → Nat × World × List Event
  | [], w => (0, w, [])
  | it :: rest, w =>
      let r := attempt_send_single_for_batch cfg w it.path it.filename it.workflow
      let r2 := fallback_loop cfg rest r.2.1
      ((if r.1 then 1 else 0) + r2.1, r2.2.1, r.2.2 ++ r2.2.2)

/-- `send_batch_to_discord()`. A `batchFlush` event (with the queue
length) marks each flush that proceeds past the empty-queue guard. -/
def send_batch_to_discord (cfg : Config) (st : NodeState) (w : World) :
    NodeState × World × List Event :=
  if st.image_queue = [] then (st, w, [])
  else
    let n := st.image_queue.length
    let st1 := { st with last_status :=
      "📤 Sending batch (" ++ toString n ++ " images)..." }
    let ev0 := [Event.batchFlush n]
    let bat := attempt_send_batch cfg st.image_queue w
    if bat.1 then
      ({ st1 with
          last_status := "✅ Batch sent (" ++ toString n ++ " images)",
          image_queue := [] },
       bat.2.1, ev0 ++ bat.2.2)
    else if cfg.enable_fallback then
      let fb := fallback_loop cfg st.image_queue bat.2.1
      let k := fb.1
      ({ st1 with
          last_status :=
            if k = n then
              "✅ Sent individually (" ++ toString k ++ "/" ++ toString n ++ ")"
            else "⚠️ Partial (" ++ toString k ++ "/" ++ toString n ++ ")",
          image_queue := [] },
       fb.2.1, ev0 ++ bat.2.2 ++ fb.2.2)
    else
      ({ st1 with last_status := "❌ Batch error", image_queue := [] },
       bat.2.1, ev0 ++ bat.2.2)

/-- `f"{counter:05}"`. -/
def pad5 (n : Nat) : String :=
  let s := toString n
  String.mk (List.replicate (5 - s.length) '0') ++ s

/-- The on-disk filename `f"{filename}_{counter:05}_.png"`. -/
def file_name_at (filename : String) (counter : Nat) : String :=
  filename ++ "_" ++ pad5 counter ++ "_.png"

/-- Accumulator for the per-image loop of `preview_images`. -/
structure PrevAcc where
  st : NodeState
  w : World
  evs : List Event
  results : List UIResult
  counter : Nat
deriving DecidableEq

/-- Result of `preview_images`. -/
structure PreviewOut where
  st : NodeState
  w : World
  evs : List Event
  results : List UIResult
  output : List Nat
deriving DecidableEq

/-- The `workflow_json` extracted from `extra_pnginfo` (lines 210–212). -/
def workflow_of (extra_pnginfo : Option (List (String × String))) : Option String :=
  extra_pnginfo.bind (fun l => l.lookup "workflow")

/-- Appending the freshly saved image to `image_queue` (line 216). -/
def preview_enqueue (extra_pnginfo : Option (List (String × String)))
    (full_path file : String) (st : NodeState) : NodeState :=
  { st with image_queue :=
      st.image_queue ++ [QueuedItem.mk full_path file (workflow_of extra_pnginfo)] }

/-- The delivery part of one loop iteration (lines 208–220): enqueue and
possibly flush in batch mode, send immediately otherwise, do nothing
when sending is disabled or no webhook URL is configured. -/
def preview_send_part (cfg : Config) (send_flag batch_flag : String)
    (extra_pnginfo : Option (List (String × String)))
    (full_path file : String) (st : NodeState) (w : World) :
    NodeState × World × List Event :=
  if send_flag = "enable" ∧ cfg.webhook_url ≠ "" then
    if batch_flag = "enable" then
      if cfg.batch_size ≤
          (preview_enqueue extra_pnginfo full_path file st).image_queue.length then
        send_batch_to_discord cfg (preview_enqueue extra_pnginfo full_path file st) w
      else (preview_enqueue extra_pnginfo full_path file st, w, [])
    else send_to_discord cfg st w full_path file (workflow_of extra_pnginfo)
  else (st, w, [])

/-- `img.save(full_path, ...)`: the saved PNG appears on disk with its
byte size. -/
def fs_save (w : World) (full_path : String) (sz : Nat) : World :=
  { w with fs := fsInsert w.fs full_path sz }

/-- One iteration of the `for image in images` loop of `preview_images`:
save the PNG (an input image is represented by the byte size its saved
file gets), record the UI result, run the delivery part, bump the
counter. -/
def preview_step (cfg : Config) (folder filename subfolder : String)
    (send_flag batch_flag : String)
    (extra_pnginfo : Option (List (String × String)))
    (acc : PrevAcc) (sz : Nat) : PrevAcc :=
  PrevAcc.mk
    (preview_send_part cfg send_flag batch_flag extra_pnginfo
      (path_join folder (file_name_at filename acc.counter))
      (file_name_at filename acc.counter) acc.st
      (fs_save acc.w (path_join folder (file_name_at filename acc.counter)) sz)).1
    (preview_send_part cfg send_flag batch_flag extra_pnginfo
      (path_join folder (file_name_at filename acc.counter))
      (file_name_at filename acc.counter) acc.st
      (fs_save acc.w (path_join folder (file_name_at filename acc.counter)) sz)).2.1
    (acc.evs ++
      Event.createFile (path_join folder (file_name_at filename acc.counter)) ::
      (preview_send_part cfg send_flag batch_flag extra_pnginfo
        (path_join folder (file_name_at filename acc.counter))
        (file_name_at filename acc.counter) acc.st
        (fs_save acc.w (path_join folder (file_name_at filename acc.counter)) sz)).2.2)
    (acc.results ++ [UIResult.mk (file_name_at filename acc.counter) subfolder "temp"])
    (acc.counter + 1)

/-- The flush of any remaining queued images after the loop (lines
225–226). -/
def preview_flush_remaining (cfg : Config) (send_flag batch_flag : String)
    (acc : PrevAcc) : PrevAcc :=
  if send_flag = "enable" ∧ batch_flag = "enable" ∧ acc.st.image_queue ≠ [] then
    PrevAcc.mk (send_batch_to_discord cfg acc.st acc.w).1
      (send_batch_to_discord cfg acc.st acc.w).2.1
      (acc.evs ++ (send_batch_to_discord cfg acc.st acc.w).2.2)
      acc.results acc.counter
  else acc

/-- The workflow-log dump (lines 229–238). -/
def preview_workflow_log (output_dir : String)
    (extra_pnginfo : Option (List (String × String))) (acc : PrevAcc) : PrevAcc :=
  match workflow_of extra_pnginfo with
  | some _ =>
      (match acc.w.json with
       | true :: rest =>
           PrevAcc.mk acc.st
             (World.mk
               (fsInsert acc.w.fs (path_join output_dir "workflow_log.json") 0)
               acc.w.net acc.w.comp rest)
             (acc.evs ++
               [Event.createFile (path_join output_dir "workflow_log.json")])
             acc.results acc.counter
       | false :: rest =>
           PrevAcc.mk acc.st (World.mk acc.w.fs acc.w.net acc.w.comp rest)
             acc.evs acc.results acc.counter
       | [] => acc)
  | none => acc

/-- `preview_images(images, send_to_discord, batch_mode, passthrough_image,
prompt, extra_pnginfo)`. The host-supplied save location
(`get_save_image_path`) is passed in as `folder`/`filename`/`subfolder`/
`counter0`, and `output_dir` is the node's temp directory. -/
def preview_images (cfg : Config) (st : NodeState) (w : World)
    (images : List Nat) (send_flag batch_flag : String)
    (passthrough_image : Option (List Nat)) (_prompt : Option String)
    (extra_pnginfo : Option (List (String × String)))
    (folder filename subfolder output_dir : String) (counter0 : Nat) :
    PreviewOut :=
  let acc2 := preview_workflow_log output_dir extra_pnginfo
    (preview_flush_remaining cfg send_flag batch_flag
      (images.foldl
        (preview_step cfg folder filename subfolder send_flag batch_flag
          extra_pnginfo)
        (PrevAcc.mk st w [] [] counter0)))
  PreviewOut.mk acc2.st acc2.w acc2.evs acc2.results
    (passthrough_image.getD images)

/-! ## Basic lemmas about the embedding -/

/-- `size_mb_gt` is exactly the source's rational comparison
`get_file_size_mb(path) > max_file_size_mb`. -/
theorem size_mb_gt_iff (bytes : Nat) (mb : ℚ) :
    size_mb_gt bytes mb = true ↔ mb < (bytes : ℚ) / (1024 * 1024) := by
  have hden : (0 : ℚ) < (mb.den : ℚ) := by exact_mod_cast mb.pos
  have hnum : (mb.num : ℚ) = mb * (mb.den : ℚ) := by
    have h1 : ((mb.num : ℚ) / (mb.den : ℚ)) * (mb.den : ℚ) = mb * (mb.den : ℚ) := by
      rw [Rat.num_div_den]
    rwa [div_mul_cancel₀ _ (ne_of_gt hden)] at h1
  unfold size_mb_gt
  rw [decide_eq_true_eq]
  rw [lt_div_iff₀ (by norm_num : (0 : ℚ) < 1024 * 1024)]
  rw [← mul_lt_mul_right hden]
  rw [mul_right_comm, ← hnum]
  constructor
  · intro h
    exact_mod_cast h
  · intro h
    exact_mod_cast h

theorem get_file_size_mb_gt_iff (fs : List (String × Nat)) (p : String) (mb : ℚ) :
    size_mb_gt (getsize fs p) mb = true ↔ mb < get_file_size_mb fs p := by
  rw [size_mb_gt_iff]
  rfl

/-- Combined queue size in bytes. -/
def sum_sizes_bytes (fs : List (String × Nat)) (q : List QueuedItem) : Nat :=
  (q.map (fun it => getsize fs it.path)).sum

/-- The byte ceiling `25 * 1024 * 1024 < total` is exactly the source's
megabyte comparison `total_size > 25`. -/
theorem sum_bytes_gt_25_iff (fs : List (String × Nat)) (q : List QueuedItem) :
    (25 * 1024 * 1024 < sum_sizes_bytes fs q) ↔
      (25 : ℚ) < (q.map (fun it => get_file_size_mb fs it.path)).sum := by
  have hsum : (q.map (fun it => get_file_size_mb fs it.path)).sum =
      ((sum_sizes_bytes fs q : ℚ)) / (1024 * 1024) := by
    induction q with
    | nil => simp [sum_sizes_bytes]
    | cons a t ih =>
        rw [List.map_cons, List.sum_cons, ih]
        have hc : ((sum_sizes_bytes fs (a :: t) : ℚ)) =
            (getsize fs a.path : ℚ) + (sum_sizes_bytes fs t : ℚ) := by
          unfold sum_sizes_bytes
          rw [List.map_cons, List.sum_cons]
          push_cast
          ring
        rw [hc, add_div]
        rfl
  rw [hsum, lt_div_iff₀ (by norm_num : (0 : ℚ) < 1024 * 1024)]
  constructor
  · intro h
    have : ((25 * 1024 * 1024 : Nat) : ℚ) < ((sum_sizes_bytes fs q : Nat) : ℚ) := by
      exact_mod_cast h
    push_cast at this
    linarith
  · intro h
    have : ((25 * 1024 * 1024 : Nat) : ℚ) < ((sum_sizes_bytes fs q : Nat) : ℚ) := by
      push_cast
      linarith
    exact_mod_cast this

theorem fsLookup_remove (fs : List (String × Nat)) (r q : String) :
    fsLookup (fsRemove fs r) q = if q = r then none else fsLookup fs q := by
  induction fs with
  | nil => by_cases hq : q = r <;> simp [fsRemove, fsLookup, hq]
  | cons e t ih =>
      by_cases hk : e.1 = r
      · rw [show fsRemove (e :: t) r = fsRemove t r by simp [fsRemove, hk], ih]
        by_cases hq : q = r
        · simp [hq]
        · have hek : ¬(e.1 = q) := fun hc => hq (by rw [← hc, hk])
          simp [hq, fsLookup, hek]
      · rw [show fsRemove (e :: t) r = e :: fsRemove t r by simp [fsRemove, hk]]
        by_cases he : e.1 = q
        · have hq : ¬(q = r) := fun hc => hk (by rw [he, hc])
          simp [fsLookup, he, hq]
        · simp only [fsLookup, he, if_neg, if_false]
          rw [ih]

theorem fsLookup_insert (fs : List (String × Nat)) (p : String) (n : Nat) (q : String) :
    fsLookup (fsInsert fs p n) q = if q = p then some n else fsLookup fs q := by
  unfold fsInsert
  by_cases hq : q = p
  · simp [fsLookup, hq]
  · have hp : ¬(p = q) := fun hc => hq hc.symm
    simp only [fsLookup, hp, if_false, if_neg hq]
    rw [fsLookup_remove]
    simp [hq]

/-! ### Event extractors used in theorem statements -/

/-- The filename carried by a `singleAttempt` event. -/
def single_name : Event → Option String
  | Event.singleAttempt fn => some fn
  | _ => none

/-- The queue length carried by a `batchFlush` event. -/
def flush_size : Event → Option Nat
  | Event.batchFlush n => some n
  | _ => none

/-- Whether an event is a batch-mode HTTP post. -/
def is_batch_post : Event → Bool
  | Event.netPost b _ _ => b
  | _ => false

/-- Whether an event is any HTTP post. -/
def is_net_post : Event → Bool
  | Event.netPost _ _ _ => true
  | _ => false

/-- Whether an event is a file creation. -/
def is_create : Event → Bool
  | Event.createFile _ => true
  | _ => false

/-! ### Characterization of `do_post` -/

theorem do_post_empty_url (w : World) (b : Bool) (f : List MPField) (t : Nat) :
    do_post w "" b f t = (false, w, []) := by
  unfold do_post
  rw [if_pos rfl]

theorem do_post_fs (w : World) (url : String) (b : Bool) (f : List MPField) (t : Nat) :
    (do_post w url b f t).2.1.fs = w.fs := by
  unfold do_post
  by_cases h : url = ""
  · rw [if_pos h]
  · rw [if_neg h]
    rcases w.net with _ | ⟨o, rest⟩ <;> rfl

theorem do_post_comp (w : World) (url : String) (b : Bool) (f : List MPField) (t : Nat) :
    (do_post w url b f t).2.1.comp = w.comp := by
  unfold do_post
  by_cases h : url = ""
  · rw [if_pos h]
  · rw [if_neg h]
    rcases w.net with _ | ⟨o, rest⟩ <;> rfl

theorem do_post_json (w : World) (url : String) (b : Bool) (f : List MPField) (t : Nat) :
    (do_post w url b f t).2.1.json = w.json := by
  unfold do_post
  by_cases h : url = ""
  · rw [if_pos h]
  · rw [if_neg h]
    rcases w.net with _ | ⟨o, rest⟩ <;> rfl

theorem do_post_events (w : World) (url : String) (b : Bool) (f : List MPField)
    (t : Nat) : ∀ e ∈ (do_post w url b f t).2.2, e = Event.netPost b f t := by
  unfold do_post
  by_cases h : url = ""
  · rw [if_pos h]; intro e he; simp at he
  · rw [if_neg h]
    rcases w.net with _ | ⟨o, rest⟩ <;> intro e he <;> simpa using he

theorem do_post_true_iff (w : World) (url : String) (b : Bool) (f : List MPField)
    (t : Nat) : (do_post w url b f t).1 = true ↔
      (url ≠ "" ∧ w.net.headD NetOutcome.err = NetOutcome.status 200) := by
  unfold do_post
  by_cases h : url = ""
  · rw [if_pos h]
    simp [h]
  · rw [if_neg h]
    rcases hn : w.net with _ | ⟨o, rest⟩
    · simp [hn, h]
    · simp [hn, h, beq_iff_eq]

/-! ### Characterization of `compress_image` -/

theorem compress_image_ok (w : World) (p : String) (s : Nat) (rest : List CompOutcome)
    (h : w.comp = CompOutcome.ok s :: rest) :
    compress_image w p = (Except.ok (compressed_path p),
      { w with comp := rest, fs := fsInsert w.fs (compressed_path p) s },
      [Event.compressCall p, Event.createFile (compressed_path p)]) := by
  unfold compress_image
  rw [h]

theorem compress_image_err (w : World) (p : String) (rest : List CompOutcome)
    (h : w.comp = CompOutcome.err :: rest) :
    compress_image w p = (Except.error (), { w with comp := rest },
      [Event.compressCall p]) := by
  unfold compress_image
  rw [h]

theorem compress_image_nil (w : World) (p : String) (h : w.comp = []) :
    compress_image w p = (Except.error (), w, [Event.compressCall p]) := by
  unfold compress_image
  rw [h]

/-! ### Characterization of `apply_size_policy` -/

/-- The per-file size-policy condition of lines 259 and 419. -/
abbrev policy_cond (cfg : Config) (fs : List (String × Nat)) (p : String) : Prop :=
  cfg.enable_compression = true ∧
    size_mb_gt (getsize fs p) cfg.max_file_size_mb = true

theorem asp_off (cfg : Config) (w : World) (p fn : String) (wj : Option String)
    (h : ¬ policy_cond cfg w.fs p) :
    apply_size_policy cfg w p fn wj = (p, none, w, []) := by
  unfold apply_size_policy
  rw [if_neg h]

theorem asp_comp_err (cfg : Config) (w : World) (p fn : String) (wj : Option String)
    (rest : List CompOutcome) (h : policy_cond cfg w.fs p)
    (hc : w.comp = CompOutcome.err :: rest) :
    apply_size_policy cfg w p fn wj =
      (p, none, { w with comp := rest }, [Event.compressCall p]) := by
  unfold apply_size_policy
  rw [if_pos h, compress_image_err w p rest hc]

theorem asp_comp_nil (cfg : Config) (w : World) (p fn : String) (wj : Option String)
    (h : policy_cond cfg w.fs p) (hc : w.comp = []) :
    apply_size_policy cfg w p fn wj = (p, none, w, [Event.compressCall p]) := by
  unfold apply_size_policy
  rw [if_pos h, compress_image_nil w p hc]

theorem asp_ok_nowf (cfg : Config) (w : World) (p fn : String) (s : Nat)
    (rest : List CompOutcome) (h : policy_cond cfg w.fs p)
    (hc : w.comp = CompOutcome.ok s :: rest) :
    apply_size_policy cfg w p fn none = (compressed_path p, none,
      { w with comp := rest, fs := fsInsert w.fs (compressed_path p) s },
      [Event.compressCall p, Event.createFile (compressed_path p)]) := by
  unfold apply_size_policy
  rw [if_pos h, compress_image_ok w p s rest hc]

theorem asp_ok_wf_ok (cfg : Config) (w : World) (p fn : String) (j : String)
    (s : Nat) (rest : List CompOutcome) (jrest : List Bool)
    (h : policy_cond cfg w.fs p) (hc : w.comp = CompOutcome.ok s :: rest)
    (hj : w.json = true :: jrest) :
    apply_size_policy cfg w p fn (some j) =
      (compressed_path p,
       some (workflow_path_of (compressed_path p) fn),
       World.mk (fsInsert (fsInsert w.fs (compressed_path p) s)
           (workflow_path_of (compressed_path p) fn) 0) w.net rest jrest,
       [Event.compressCall p, Event.createFile (compressed_path p),
        Event.createFile (workflow_path_of (compressed_path p) fn)]) := by
  unfold apply_size_policy
  rw [if_pos h, compress_image_ok w p s rest hc]
  simp only [hj]
  rfl

theorem asp_ok_wf_fail (cfg : Config) (w : World) (p fn : String) (j : String)
    (s : Nat) (rest : List CompOutcome) (jrest : List Bool)
    (h : policy_cond cfg w.fs p) (hc : w.comp = CompOutcome.ok s :: rest)
    (hj : w.json = false :: jrest) :
    apply_size_policy cfg w p fn (some j) =
      (compressed_path p, none,
       World.mk (fsInsert w.fs (compressed_path p) s) w.net rest jrest,
       [Event.compressCall p, Event.createFile (compressed_path p)]) := by
  unfold apply_size_policy
  rw [if_pos h, compress_image_ok w p s rest hc]
  simp only [hj]

theorem asp_ok_wf_nil (cfg : Config) (w : World) (p fn : String) (j : String)
    (s : Nat) (rest : List CompOutcome)
    (h : policy_cond cfg w.fs p) (hc : w.comp = CompOutcome.ok s :: rest)
    (hj : w.json = []) :
    apply_size_policy cfg w p fn (some j) =
      (compressed_path p, none,
       { w with comp := rest, fs := fsInsert w.fs (compressed_path p) s },
       [Event.compressCall p, Event.createFile (compressed_path p)]) := by
  unfold apply_size_policy
  rw [if_pos h, compress_image_ok w p s rest hc]
  simp only [hj]

/-! ### Characterization of the cleanup helpers -/

theorem cleanup_one_none (w : World) (o : String) :
    cleanup_one w o none = (w, []) := rfl

theorem cleanup_one_skip (w : World) (o q : String)
    (h : ¬(q ≠ "" ∧ q ≠ o ∧ fsExists w.fs q = true)) :
    cleanup_one w o (some q) = (w, []) := by
  show (if q ≠ "" ∧ q ≠ o ∧ fsExists w.fs q = true then
      ({ w with fs := fsRemove w.fs q }, [Event.removeFile q])
    else (w, [])) = (w, [])
  rw [if_neg h]

theorem cleanup_one_rm (w : World) (o q : String)
    (h : q ≠ "" ∧ q ≠ o ∧ fsExists w.fs q = true) :
    cleanup_one w o (some q) =
      ({ w with fs := fsRemove w.fs q }, [Event.removeFile q]) := by
  show (if q ≠ "" ∧ q ≠ o ∧ fsExists w.fs q = true then
      ({ w with fs := fsRemove w.fs q }, [Event.removeFile q])
    else (w, [])) = _
  rw [if_pos h]

theorem cleanup_one_events (w : World) (o : String) (po : Option String) :
    ∀ e ∈ (cleanup_one w o po).2, ∃ q, e = Event.removeFile q ∧ q ≠ o := by
  intro e he
  match po with
  | none => simp [cleanup_one] at he
  | some q =>
      by_cases h : q ≠ "" ∧ q ≠ o ∧ fsExists w.fs q = true
      · rw [cleanup_one_rm w o q h] at he
        simp at he
        exact ⟨q, he, h.2.1⟩
      · rw [cleanup_one_skip w o q h] at he
        simp at he

theorem cleanup_one_lookup_original (w : World) (o : String) (po : Option String) :
    fsLookup (cleanup_one w o po).1.fs o = fsLookup w.fs o := by
  match po with
  | none => rfl
  | some q =>
      by_cases h : q ≠ "" ∧ q ≠ o ∧ fsExists w.fs q = true
      · rw [cleanup_one_rm w o q h]
        show fsLookup (fsRemove w.fs q) o = _
        rw [fsLookup_remove]
        rw [if_neg (fun hc => h.2.1 hc.symm)]
      · rw [cleanup_one_skip w o q h]

theorem cleanup_one_oracles (w : World) (o : String) (po : Option String) :
    (cleanup_one w o po).1.net = w.net ∧ (cleanup_one w o po).1.comp = w.comp ∧
      (cleanup_one w o po).1.json = w.json := by
  match po with
  | none => exact ⟨rfl, rfl, rfl⟩
  | some q =>
      by_cases h : q ≠ "" ∧ q ≠ o ∧ fsExists w.fs q = true
      · rw [cleanup_one_rm w o q h]
        exact ⟨rfl, rfl, rfl⟩
      · rw [cleanup_one_skip w o q h]
        exact ⟨rfl, rfl, rfl⟩

theorem cleanup_events (w : World) (c o : String) (po : Option String) :
    ∀ e ∈ (cleanup_temp_files w c o po).2, ∃ q, e = Event.removeFile q ∧ q ≠ o := by
  intro e he
  unfold cleanup_temp_files at he
  rcases List.mem_append.mp he with h1 | h2
  · exact cleanup_one_events w o (some c) e h1
  · exact cleanup_one_events _ o po e h2

theorem cleanup_lookup_original (w : World) (c o : String) (po : Option String) :
    fsLookup (cleanup_temp_files w c o po).1.fs o = fsLookup w.fs o := by
  unfold cleanup_temp_files
  rw [cleanup_one_lookup_original, cleanup_one_lookup_original]

theorem bool_true_of_not_false {b : Bool} (h : ¬ b = false) : b = true := by
  cases b
  · exact absurd rfl h
  · rfl

/-! ### Characterization of `attempt_send_single` -/

theorem ass_missing (cfg : Config) (w : World) (p fn : String) (wp : Option String)
    (h : fsExists w.fs p = false) :
    attempt_send_single cfg w p fn wp = (false, w, [Event.singleAttempt fn]) := by
  unfold attempt_send_single
  rw [if_pos h]

theorem ass_fs (cfg : Config) (w : World) (p fn : String) (wp : Option String) :
    (attempt_send_single cfg w p fn wp).2.1.fs = w.fs := by
  unfold attempt_send_single
  by_cases he : fsExists w.fs p = false
  · rw [if_pos he]
  · rw [if_neg he]
    exact do_post_fs w cfg.webhook_url false _ 30

theorem ass_comp (cfg : Config) (w : World) (p fn : String) (wp : Option String) :
    (attempt_send_single cfg w p fn wp).2.1.comp = w.comp := by
  unfold attempt_send_single
  by_cases he : fsExists w.fs p = false
  · rw [if_pos he]
  · rw [if_neg he]
    exact do_post_comp w cfg.webhook_url false _ 30

theorem ass_json (cfg : Config) (w : World) (p fn : String) (wp : Option String) :
    (attempt_send_single cfg w p fn wp).2.1.json = w.json := by
  unfold attempt_send_single
  by_cases he : fsExists w.fs p = false
  · rw [if_pos he]
  · rw [if_neg he]
    exact do_post_json w cfg.webhook_url false _ 30

theorem ass_events (cfg : Config) (w : World) (p fn : String) (wp : Option String) :
    ∀ e ∈ (attempt_send_single cfg w p fn wp).2.2,
      e = Event.singleAttempt fn ∨ ∃ flds, e = Event.netPost false flds 30 := by
  unfold attempt_send_single
  by_cases he : fsExists w.fs p = false
  · rw [if_pos he]
    intro e he'
    left
    simpa using he'
  · rw [if_neg he]
    intro e he'
    rcases List.mem_append.mp he' with h1 | h2
    · left; simpa using h1
    · right; exact ⟨_, do_post_events w _ false _ 30 e h2⟩

theorem do_post_no_single (w : World) (url : String) (b : Bool) (f : List MPField)
    (t : Nat) : (do_post w url b f t).2.2.filterMap single_name = [] := by
  rw [List.filterMap_eq_nil_iff]
  intro e he
  rw [do_post_events w url b f t e he]
  rfl

theorem ass_single_names (cfg : Config) (w : World) (p fn : String)
    (wp : Option String) :
    (attempt_send_single cfg w p fn wp).2.2.filterMap single_name = [fn] := by
  unfold attempt_send_single
  by_cases he : fsExists w.fs p = false
  · rw [if_pos he]
    rfl
  · rw [if_neg he]
    show ([Event.singleAttempt fn] ++
      (do_post w cfg.webhook_url false (single_fields w.fs p fn wp) 30).2.2).filterMap
        single_name = [fn]
    rw [List.filterMap_append, do_post_no_single]
    rfl

theorem ass_true_iff (cfg : Config) (w : World) (p fn : String) (wp : Option String) :
    (attempt_send_single cfg w p fn wp).1 = true ↔
      (cfg.webhook_url ≠ "" ∧ fsExists w.fs p = true ∧
        w.net.headD NetOutcome.err = NetOutcome.status 200) := by
  by_cases he : fsExists w.fs p = false
  · rw [ass_missing cfg w p fn wp he]
    simp [he]
  · have he' : fsExists w.fs p = true := bool_true_of_not_false he
    unfold attempt_send_single
    rw [if_neg he]
    rw [do_post_true_iff]
    simp [he']

/-- Exact form of a single-image post with no sidecar path. -/
theorem ass_eq_no_wp (cfg : Config) (w : World) (p fn : String)
    (he : ¬ fsExists w.fs p = false) :
    attempt_send_single cfg w p fn none =
      ((do_post w cfg.webhook_url false
          [MPField.mk "file" fn (get_mime_type p) p] 30).1,
       (do_post w cfg.webhook_url false
          [MPField.mk "file" fn (get_mime_type p) p] 30).2.1,
       Event.singleAttempt fn ::
         (do_post w cfg.webhook_url false
            [MPField.mk "file" fn (get_mime_type p) p] 30).2.2) := by
  unfold attempt_send_single
  rw [if_neg he]
  rfl

/-- Exact form of a single-image post with a live sidecar path: the
sidecar goes out as a second `file1` field. -/
theorem ass_eq_some_wp (cfg : Config) (w : World) (p fn q : String)
    (he : ¬ fsExists w.fs p = false) (hq : q ≠ "" ∧ fsExists w.fs q = true) :
    attempt_send_single cfg w p fn (some q) =
      ((do_post w cfg.webhook_url false
          [MPField.mk "file" fn (get_mime_type p) p,
           MPField.mk "file1" (basename q) "application/json" q] 30).1,
       (do_post w cfg.webhook_url false
          [MPField.mk "file" fn (get_mime_type p) p,
           MPField.mk "file1" (basename q) "application/json" q] 30).2.1,
       Event.singleAttempt fn ::
         (do_post w cfg.webhook_url false
            [MPField.mk "file" fn (get_mime_type p) p,
             MPField.mk "file1" (basename q) "application/json" q] 30).2.2) := by
  have hf : single_fields w.fs p fn (some q) =
      [MPField.mk "file" fn (get_mime_type p) p,
       MPField.mk "file1" (basename q) "application/json" q] := by
    show (if q ≠ "" ∧ fsExists w.fs q = true then
        [MPField.mk "file" fn (get_mime_type p) p,
         MPField.mk "file1" (basename q) "application/json" q]
      else [MPField.mk "file" fn (get_mime_type p) p]) = _
    rw [if_pos hq]
  unfold attempt_send_single
  rw [if_neg he, hf]
  rfl

/-! ### Characterization of `apply_size_policy` events and oracles -/

theorem asp_events (cfg : Config) (w : World) (p fn : String) (wj : Option String) :
    ∀ e ∈ (apply_size_policy cfg w p fn wj).2.2.2,
      (∃ x, e = Event.compressCall x) ∨ ∃ x, e = Event.createFile x := by
  by_cases h : policy_cond cfg w.fs p
  · rcases hc : w.comp with _ | ⟨o, rest⟩
    · rw [asp_comp_nil cfg w p fn wj h hc]
      intro e he
      simp at he
      exact Or.inl ⟨p, he⟩
    · cases o with
      | err =>
          rw [asp_comp_err cfg w p fn wj rest h hc]
          intro e he
          simp at he
          exact Or.inl ⟨p, he⟩
      | ok s =>
          cases wj with
          | none =>
              rw [asp_ok_nowf cfg w p fn s rest h hc]
              intro e he
              rcases List.mem_cons.mp he with h1 | h2
              · exact Or.inl ⟨p, h1⟩
              · simp at h2
                exact Or.inr ⟨_, h2⟩
          | some j =>
              rcases hj : w.json with _ | ⟨b, jrest⟩
              · rw [asp_ok_wf_nil cfg w p fn j s rest h hc hj]
                intro e he
                rcases List.mem_cons.mp he with h1 | h2
                · exact Or.inl ⟨p, h1⟩
                · simp at h2
                  exact Or.inr ⟨_, h2⟩
              · cases b with
                | false =>
                    rw [asp_ok_wf_fail cfg w p fn j s rest jrest h hc hj]
                    intro e he
                    rcases List.mem_cons.mp he with h1 | h2
                    · exact Or.inl ⟨p, h1⟩
                    · simp at h2
                      exact Or.inr ⟨_, h2⟩
                | true =>
                    rw [asp_ok_wf_ok cfg w p fn j s rest jrest h hc hj]
                    intro e he
                    rcases List.mem_cons.mp he with h1 | h2
                    · exact Or.inl ⟨p, h1⟩
                    · rcases List.mem_cons.mp h2 with h3 | h4
                      · exact Or.inr ⟨_, h3⟩
                      · simp at h4
                        exact Or.inr ⟨_, h4⟩
  · rw [asp_off cfg w p fn wj h]
    intro e he
    simp at he

theorem asp_net (cfg : Config) (w : World) (p fn : String) (wj : Option String) :
    (apply_size_policy cfg w p fn wj).2.2.1.net = w.net := by
  by_cases h : policy_cond cfg w.fs p
  · rcases hc : w.comp with _ | ⟨o, rest⟩
    · rw [asp_comp_nil cfg w p fn wj h hc]
    · cases o with
      | err => rw [asp_comp_err cfg w p fn wj rest h hc]
      | ok s =>
          cases wj with
          | none => rw [asp_ok_nowf cfg w p fn s rest h hc]
          | some j =>
              rcases hj : w.json with _ | ⟨b, jrest⟩
              · rw [asp_ok_wf_nil cfg w p fn j s rest h hc hj]
              · cases b with
                | false => rw [asp_ok_wf_fail cfg w p fn j s rest jrest h hc hj]
                | true => rw [asp_ok_wf_ok cfg w p fn j s rest jrest h hc hj]
  · rw [asp_off cfg w p fn wj h]

/-! ### Characterization of the batch transport -/

theorem sum_sizes_bytes_cons (fs : List (String × Nat)) (a : QueuedItem)
    (rest : List QueuedItem) :
    sum_sizes_bytes fs (a :: rest) = getsize fs a.path + sum_sizes_bytes fs rest := by
  simp [sum_sizes_bytes]

theorem build_none_of_gt (fs : List (String × Nat)) :
    ∀ (q : List QueuedItem) (i t : Nat), t ≤ 25 * 1024 * 1024 →
      25 * 1024 * 1024 < t + sum_sizes_bytes fs q →
      build_batch_fields fs q i t = none := by
  intro q
  induction q with
  | nil =>
      intro i t h1 h2
      simp [sum_sizes_bytes] at h2
      omega
  | cons a rest ih =>
      intro i t h1 h2
      rw [sum_sizes_bytes_cons] at h2
      unfold build_batch_fields
      by_cases hex : fsExists fs a.path = false
      · rw [if_pos hex]
      · rw [if_neg hex]
        by_cases h25 : 25 * 1024 * 1024 < t + getsize fs a.path
        · rw [if_pos h25]
        · rw [if_neg h25]
          rw [ih (i + 1) (t + getsize fs a.path) (by omega) (by omega)]

theorem build_some_parts (fs : List (String × Nat)) :
    ∀ (q : List QueuedItem) (i t : Nat) (l : List MPField),
      build_batch_fields fs q i t = some l →
      (∀ it ∈ q, fsExists fs it.path = true) ∧
      (t ≤ 25 * 1024 * 1024 → t + sum_sizes_bytes fs q ≤ 25 * 1024 * 1024) ∧
      l.map (fun f => f.src) = q.map (fun it => it.path) ∧
      l.map (fun f => f.fname) = q.map (fun it => it.filename) ∧
      l.map (fun f => f.name) =
        (List.range' i q.length).map (fun k => "file" ++ toString k) := by
  intro q
  induction q with
  | nil =>
      intro i t l h
      unfold build_batch_fields at h
      cases h
      refine ⟨by simp, ?_, by simp, by simp, by simp⟩
      intro ht
      simpa [sum_sizes_bytes] using ht
  | cons a rest ih =>
      intro i t l h
      unfold build_batch_fields at h
      by_cases hex : fsExists fs a.path = false
      · rw [if_pos hex] at h
        cases h
      · rw [if_neg hex] at h
        by_cases h25 : 25 * 1024 * 1024 < t + getsize fs a.path
        · rw [if_pos h25] at h
          cases h
        · rw [if_neg h25] at h
          rcases hb : build_batch_fields fs rest (i + 1) (t + getsize fs a.path)
            with _ | l2
          · rw [hb] at h
            cases h
          · rw [hb] at h
            cases h
            obtain ⟨hall, hsum, hsrc, hfname, hname⟩ := ih _ _ _ hb
            refine ⟨?_, ?_, ?_, ?_, ?_⟩
            · intro it hit
              rcases List.mem_cons.mp hit with h1 | h2
              · rw [h1]; exact bool_true_of_not_false hex
              · exact hall it h2
            · intro ht
              rw [sum_sizes_bytes_cons]
              have := hsum (by omega)
              omega
            · rw [List.map_cons, List.map_cons, hsrc]
            · rw [List.map_cons, List.map_cons, hfname]
            · rw [List.length_cons, List.range'_succ, List.map_cons, List.map_cons,
                hname]

theorem build_some_of (fs : List (String × Nat)) :
    ∀ (q : List QueuedItem) (i t : Nat),
      (∀ it ∈ q, fsExists fs it.path = true) →
      t + sum_sizes_bytes fs q ≤ 25 * 1024 * 1024 →
      ∃ l, build_batch_fields fs q i t = some l := by
  intro q
  induction q with
  | nil =>
      intro i t _ _
      exact ⟨[], rfl⟩
  | cons a rest ih =>
      intro i t hall hsum
      rw [sum_sizes_bytes_cons] at hsum
      unfold build_batch_fields
      have hex : fsExists fs a.path = true := hall a (List.mem_cons_self a rest)
      rw [if_neg (by rw [hex]; intro hc; cases hc)]
      rw [if_neg (by omega : ¬ (25 * 1024 * 1024 < t + getsize fs a.path))]
      obtain ⟨l2, hl2⟩ := ih (i + 1) (t + getsize fs a.path)
        (fun it hit => hall it (List.mem_cons_of_mem a hit)) (by omega)
      rw [hl2]
      exact ⟨_, rfl⟩

theorem asb_oversize (cfg : Config) (q : List QueuedItem) (w : World)
    (h : 25 * 1024 * 1024 < sum_sizes_bytes w.fs q) :
    attempt_send_batch cfg q w = (false, w, []) := by
  unfold attempt_send_batch
  rw [build_none_of_gt w.fs q 0 0 (by omega) (by omega)]

theorem asb_true_iff (cfg : Config) (q : List QueuedItem) (w : World) :
    (attempt_send_batch cfg q w).1 = true ↔
      (cfg.webhook_url ≠ "" ∧ (∀ it ∈ q, fsExists w.fs it.path = true) ∧
       sum_sizes_bytes w.fs q ≤ 25 * 1024 * 1024 ∧
       w.net.headD NetOutcome.err = NetOutcome.status 200) := by
  unfold attempt_send_batch
  rcases hb : build_batch_fields w.fs q 0 0 with _ | l
  · constructor
    · intro h
      cases h
    · rintro ⟨hurl, hall, hsum, hnet⟩
      obtain ⟨l, hl⟩ := build_some_of w.fs q 0 0 hall (by omega)
      rw [hb] at hl
      cases hl
  · rw [do_post_true_iff]
    obtain ⟨hall, hsum, _, _, _⟩ := build_some_parts w.fs q 0 0 l hb
    constructor
    · rintro ⟨hurl, hnet⟩
      exact ⟨hurl, hall, by have := hsum (by omega); omega, hnet⟩
    · rintro ⟨hurl, _, _, hnet⟩
      exact ⟨hurl, hnet⟩

theorem asb_events (cfg : Config) (q : List QueuedItem) (w : World) :
    ∀ e ∈ (attempt_send_batch cfg q w).2.2,
      ∃ flds, e = Event.netPost true flds 60 ∧
        build_batch_fields w.fs q 0 0 = some flds := by
  unfold attempt_send_batch
  rcases hb : build_batch_fields w.fs q 0 0 with _ | l
  · intro e he
    simp at he
  · intro e he
    exact ⟨l, do_post_events w _ true l 60 e he, rfl⟩

/-! ### Events of the per-item fallback path -/

theorem asp_no_single (cfg : Config) (w : World) (p fn : String)
    (wj : Option String) :
    (apply_size_policy cfg w p fn wj).2.2.2.filterMap single_name = [] := by
  rw [List.filterMap_eq_nil_iff]
  intro e he
  rcases asp_events cfg w p fn wj e he with ⟨x, hx⟩ | ⟨x, hx⟩ <;> rw [hx] <;> rfl

theorem cleanup_no_single (w : World) (c o : String) (po : Option String) :
    (cleanup_temp_files w c o po).2.filterMap single_name = [] := by
  rw [List.filterMap_eq_nil_iff]
  intro e he
  obtain ⟨x, hx, _⟩ := cleanup_events w c o po e he
  rw [hx]
  rfl

theorem sfb_single_names (cfg : Config) (w : World) (p fn : String)
    (wj : Option String) :
    (attempt_send_single_for_batch cfg w p fn wj).2.2.filterMap single_name
      = [fn] := by
  unfold attempt_send_single_for_batch
  simp only [List.filterMap_append, asp_no_single, cleanup_no_single,
    ass_single_names]
  rfl

theorem sfb_event_kinds (cfg : Config) (w : World) (p fn : String)
    (wj : Option String) :
    ∀ e ∈ (attempt_send_single_for_batch cfg w p fn wj).2.2,
      flush_size e = none ∧ is_batch_post e = false := by
  intro e he
  unfold attempt_send_single_for_batch at he
  simp only [List.mem_append] at he
  rcases he with (h1 | h2) | h3
  · rcases asp_events _ _ _ _ _ e h1 with ⟨x, hx⟩ | ⟨x, hx⟩ <;> rw [hx] <;>
      exact ⟨rfl, rfl⟩
  · rcases ass_events _ _ _ _ _ e h2 with hx | ⟨flds, hx⟩ <;> rw [hx] <;>
      exact ⟨rfl, rfl⟩
  · obtain ⟨x, hx, _⟩ := cleanup_events _ _ _ _ e h3
    rw [hx]
    exact ⟨rfl, rfl⟩

theorem fl_single_names (cfg : Config) :
    ∀ (q : List QueuedItem) (w : World),
      (fallback_loop cfg q w).2.2.filterMap single_name
        = q.map (fun it => it.filename) := by
  intro q
  induction q with
  | nil => intro w; rfl
  | cons it rest ih =>
      intro w
      unfold fallback_loop
      simp only [List.filterMap_append, sfb_single_names, ih]
      rfl

theorem fl_event_kinds (cfg : Config) :
    ∀ (q : List QueuedItem) (w : World), ∀ e ∈ (fallback_loop cfg q w).2.2,
      flush_size e = none ∧ is_batch_post e = false := by
  intro q
  induction q with
  | nil =>
      intro w e he
      simp [fallback_loop] at he
  | cons it rest ih =>
      intro w e he
      unfold fallback_loop at he
      simp only [List.mem_append] at he
      rcases he with h1 | h2
      · exact sfb_event_kinds _ _ _ _ _ e h1
      · exact ih _ e h2

/-! ### `send_batch_to_discord` -/

theorem sbd_noop (cfg : Config) (st : NodeState) (w : World)
    (h : st.image_queue = []) : send_batch_to_discord cfg st w = (st, w, []) := by
  simp only [send_batch_to_discord, if_pos h]

theorem sbd_clears (cfg : Config) (st : NodeState) (w : World) :
    (send_batch_to_discord cfg st w).1.image_queue = [] := by
  by_cases hq : st.image_queue = []
  · rw [sbd_noop cfg st w hq]
    exact hq
  · simp only [send_batch_to_discord, if_neg hq]
    by_cases hb : (attempt_send_batch cfg st.image_queue w).1 = true
    · simp [hb]
    · by_cases hf : cfg.enable_fallback = true
      · simp [hb, hf]
      · simp [hb, hf]

theorem asb_no_flush (cfg : Config) (q : List QueuedItem) (w : World) :
    (attempt_send_batch cfg q w).2.2.filterMap flush_size = [] := by
  rw [List.filterMap_eq_nil_iff]
  intro e he
  obtain ⟨f, hf, _⟩ := asb_events cfg q w e he
  rw [hf]
  rfl

theorem fl_no_flush (cfg : Config) (q : List QueuedItem) (w : World) :
    (fallback_loop cfg q w).2.2.filterMap flush_size = [] := by
  rw [List.filterMap_eq_nil_iff]
  intro e he
  exact (fl_event_kinds cfg q w e he).1

theorem path_join_ne_empty_of_snd (a b : String) (hb : b ≠ "") :
    path_join a b ≠ "" := by
  unfold path_join
  by_cases h1 : starts_with b "/" = true
  · rw [if_pos h1]
    exact hb
  · rw [if_neg h1]
    by_cases h2 : (a = "" || ends_with a "/") = true
    · rw [if_pos h2]
      intro h
      have := congrArg String.data h
      rw [String.data_append] at this
      exact data_ne_nil_of_ne_empty hb (List.append_eq_nil.mp this).2
    · rw [if_neg h2]
      intro h
      have := congrArg String.data h
      rw [String.data_append, String.data_append] at this
      simp at this

theorem workflow_path_of_ne_empty (current fn : String) :
    workflow_path_of current fn ≠ "" :=
  path_join_ne_empty_of_snd _ _ (workflow_name_ne_empty fn)

theorem do_post_emits (w : World) (url : String) (b : Bool) (f : List MPField)
    (t : Nat) (hurl : url ≠ "") : Event.netPost b f t ∈ (do_post w url b f t).2.2 := by
  unfold do_post
  rw [if_neg hurl]
  rcases w.net with _ | ⟨o, rest⟩ <;> exact List.mem_singleton.mpr rfl

theorem sbd_flush_sizes (cfg : Config) (st : NodeState) (w : World)
    (h : ¬ st.image_queue = []) :
    (send_batch_to_discord cfg st w).2.2.filterMap flush_size
      = [st.image_queue.length] := by
  simp only [send_batch_to_discord, if_neg h]
  by_cases hb : (attempt_send_batch cfg st.image_queue w).1 = true
  · simp only [hb, if_true]
    rw [List.filterMap_append, asb_no_flush]
    rfl
  · by_cases hf : cfg.enable_fallback = true
    · simp only [hb, hf, Bool.false_eq_true, if_false, if_true]
      rw [List.filterMap_append, List.filterMap_append, asb_no_flush, fl_no_flush]
      rfl
    · simp only [hb, hf, Bool.false_eq_true, if_false]
      rw [List.filterMap_append, asb_no_flush]
      rfl

/-! ### Compression-policy helpers -/

theorem asp_compress_mem (cfg : Config) (w : World) (p fn : String)
    (wj : Option String) (h : policy_cond cfg w.fs p) :
    Event.compressCall p ∈ (apply_size_policy cfg w p fn wj).2.2.2 := by
  rcases hc : w.comp with _ | ⟨o, rest⟩
  · rw [asp_comp_nil cfg w p fn wj h hc]
    exact List.mem_singleton.mpr rfl
  · cases o with
    | err =>
        rw [asp_comp_err cfg w p fn wj rest h hc]
        exact List.mem_singleton.mpr rfl
    | ok s =>
        cases wj with
        | none =>
            rw [asp_ok_nowf cfg w p fn s rest h hc]
            exact List.mem_cons_self _ _
        | some j =>
            rcases hj : w.json with _ | ⟨b, jrest⟩
            · rw [asp_ok_wf_nil cfg w p fn j s rest h hc hj]
              exact List.mem_cons_self _ _
            · cases b with
              | false =>
                  rw [asp_ok_wf_fail cfg w p fn j s rest jrest h hc hj]
                  exact List.mem_cons_self _ _
              | true =>
                  rw [asp_ok_wf_ok cfg w p fn j s rest jrest h hc hj]
                  exact List.mem_cons_self _ _

/-- `send_to_discord` and `_attempt_send_single_for_batch` run the same
policy/send/cleanup pipeline; they differ only in the status handling,
so their world and events agree definitionally. -/
theorem send_sfb_same (cfg : Config) (st : NodeState) (w : World) (p fn : String)
    (wj : Option String) :
    (send_to_discord cfg st w p fn wj).2
      = (attempt_send_single_for_batch cfg w p fn wj).2 := rfl

/-- The event trace of the fallback/immediate pipeline, decomposed. -/
theorem sfb_events_eq (cfg : Config) (w : World) (p fn : String)
    (wj : Option String) :
    (attempt_send_single_for_batch cfg w p fn wj).2.2 =
      (apply_size_policy cfg w p fn wj).2.2.2 ++
      (attempt_send_single cfg (apply_size_policy cfg w p fn wj).2.2.1
        (apply_size_policy cfg w p fn wj).1 fn
        (apply_size_policy cfg w p fn wj).2.1).2.2 ++
      (cleanup_temp_files
        (attempt_send_single cfg (apply_size_policy cfg w p fn wj).2.2.1
          (apply_size_policy cfg w p fn wj).1 fn
          (apply_size_policy cfg w p fn wj).2.1).2.1
        (apply_size_policy cfg w p fn wj).1 p
        (apply_size_policy cfg w p fn wj).2.1).2 := rfl

theorem sfb_compress_iff (cfg : Config) (w : World) (p fn : String)
    (wj : Option String) :
    (∃ x, Event.compressCall x ∈ (attempt_send_single_for_batch cfg w p fn wj).2.2)
      ↔ policy_cond cfg w.fs p := by
  constructor
  · rintro ⟨x, hx⟩
    by_contra h
    rw [sfb_events_eq] at hx
    simp only [asp_off cfg w p fn wj h, List.mem_append] at hx
    rcases hx with (h1 | h2) | h3
    · simp at h1
    · rcases ass_events _ _ _ _ _ _ h2 with hy | ⟨flds, hy⟩ <;> simp at hy
    · obtain ⟨y, hy, _⟩ := cleanup_events _ _ _ _ _ h3
      simp at hy
  · intro h
    refine ⟨p, ?_⟩
    rw [sfb_events_eq]
    simp only [List.mem_append]
    exact Or.inl (Or.inl (asp_compress_mem cfg w p fn wj h))

theorem sfb_untransformed (cfg : Config) (w : World) (p fn : String)
    (wj : Option String) (h : ¬ policy_cond cfg w.fs p) :
    ∀ (b : Bool) (flds : List MPField) (t : Nat),
      Event.netPost b flds t ∈ (attempt_send_single_for_batch cfg w p fn wj).2.2 →
      flds = [MPField.mk "file" fn (get_mime_type p) p] := by
  intro b flds t hmem
  rw [sfb_events_eq] at hmem
  simp only [asp_off cfg w p fn wj h, List.mem_append] at hmem
  rcases hmem with (h1 | h2) | h3
  · simp at h1
  · unfold attempt_send_single at h2
    by_cases he : fsExists w.fs p = false
    · rw [if_pos he] at h2
      simp at h2
    · rw [if_neg he] at h2
      rcases List.mem_append.mp h2 with ha | hb2
      · simp at ha
      · have hdp := do_post_events w cfg.webhook_url false
          (single_fields w.fs p fn none) 30 _ hb2
        injection hdp with h1' h2'
  · obtain ⟨y, hy, _⟩ := cleanup_events _ _ _ _ _ h3
    simp at hy

/-- The ℚ-level reading of the policy condition. -/
theorem policy_cond_iff (cfg : Config) (fs : List (String × Nat)) (p : String) :
    policy_cond cfg fs p ↔
      (cfg.enable_compression = true ∧
        cfg.max_file_size_mb < get_file_size_mb fs p) :=
  and_congr Iff.rfl (get_file_size_mb_gt_iff fs p cfg.max_file_size_mb)

/-! ### Frame lemmas for cleanup after a send attempt -/

theorem not_exists_lookup_none {fs : List (String × Nat)} {q : String}
    (h : ¬ fsExists fs q = true) : fsLookup fs q = none := by
  unfold fsExists at h
  rcases hl : fsLookup fs q with _ | v
  · rfl
  · rw [hl] at h
    simp at h

theorem cleanup_one_no_new (w : World) (o : String) (po : Option String)
    (q : String) (h : fsLookup w.fs q = none) :
    fsLookup (cleanup_one w o po).1.fs q = none := by
  match po with
  | none => exact h
  | some x =>
      by_cases hx : x ≠ "" ∧ x ≠ o ∧ fsExists w.fs x = true
      · rw [cleanup_one_rm w o x hx]
        show fsLookup (fsRemove w.fs x) q = none
        rw [fsLookup_remove]
        by_cases hq : q = x
        · simp [hq]
        · rw [if_neg hq]
          exact h
      · rw [cleanup_one_skip w o x hx]
        exact h

theorem cleanup_no_new (w : World) (c o : String) (po : Option String)
    (q : String) (h : fsLookup w.fs q = none) :
    fsLookup (cleanup_temp_files w c o po).1.fs q = none := by
  unfold cleanup_temp_files
  exact cleanup_one_no_new _ o po q (cleanup_one_no_new w o (some c) q h)

theorem cleanup_current_gone (w : World) (c o : String) (po : Option String)
    (hne : c ≠ "") (hco : c ≠ o) :
    fsLookup (cleanup_temp_files w c o po).1.fs c = none := by
  unfold cleanup_temp_files
  apply cleanup_one_no_new
  by_cases hex : fsExists w.fs c = true
  · rw [cleanup_one_rm w o c ⟨hne, hco, hex⟩]
    show fsLookup (fsRemove w.fs c) c = none
    rw [fsLookup_remove, if_pos rfl]
  · rw [cleanup_one_skip w o c (fun hcon => hex hcon.2.2)]
    exact not_exists_lookup_none hex

theorem cleanup_wp_gone (w : World) (c o x : String) (hne : x ≠ "")
    (hxo : x ≠ o) :
    fsLookup (cleanup_temp_files w c o (some x)).1.fs x = none := by
  show fsLookup (cleanup_one (cleanup_one w o (some c)).1 o (some x)).1.fs x = none
  set w1 := (cleanup_one w o (some c)).1 with hw1
  by_cases hex : fsExists w1.fs x = true
  · rw [cleanup_one_rm w1 o x ⟨hne, hxo, hex⟩]
    show fsLookup (fsRemove w1.fs x) x = none
    rw [fsLookup_remove, if_pos rfl]
  · rw [cleanup_one_skip w1 o x (fun hcon => hex hcon.2.2)]
    exact not_exists_lookup_none hex

theorem asp_lookup_ne (cfg : Config) (w : World) (p fn : String)
    (wj : Option String) (q : String) (hcp : q ≠ compressed_path p)
    (hwp : q ≠ workflow_path_of (compressed_path p) fn) :
    fsLookup (apply_size_policy cfg w p fn wj).2.2.1.fs q = fsLookup w.fs q := by
  by_cases h : policy_cond cfg w.fs p
  · rcases hc : w.comp with _ | ⟨o, rest⟩
    · rw [asp_comp_nil cfg w p fn wj h hc]
    · cases o with
      | err => rw [asp_comp_err cfg w p fn wj rest h hc]
      | ok s =>
          cases wj with
          | none =>
              rw [asp_ok_nowf cfg w p fn s rest h hc]
              show fsLookup (fsInsert w.fs (compressed_path p) s) q = _
              rw [fsLookup_insert, if_neg hcp]
          | some j =>
              rcases hj : w.json with _ | ⟨b, jrest⟩
              · rw [asp_ok_wf_nil cfg w p fn j s rest h hc hj]
                show fsLookup (fsInsert w.fs (compressed_path p) s) q = _
                rw [fsLookup_insert, if_neg hcp]
              · cases b with
                | false =>
                    rw [asp_ok_wf_fail cfg w p fn j s rest jrest h hc hj]
                    show fsLookup (fsInsert w.fs (compressed_path p) s) q = _
                    rw [fsLookup_insert, if_neg hcp]
                | true =>
                    rw [asp_ok_wf_ok cfg w p fn j s rest jrest h hc hj]
                    show fsLookup (fsInsert (fsInsert w.fs (compressed_path p) s)
                      (workflow_path_of (compressed_path p) fn) 0) q = _
                    rw [fsLookup_insert, if_neg hwp, fsLookup_insert, if_neg hcp]
  · rw [asp_off cfg w p fn wj h]

/-- The world of the fallback/immediate pipeline, decomposed. -/
theorem sfb_world_eq (cfg : Config) (w : World) (p fn : String)
    (wj : Option String) :
    (attempt_send_single_for_batch cfg w p fn wj).2.1 =
      (cleanup_temp_files
        (attempt_send_single cfg (apply_size_policy cfg w p fn wj).2.2.1
          (apply_size_policy cfg w p fn wj).1 fn
          (apply_size_policy cfg w p fn wj).2.1).2.1
        (apply_size_policy cfg w p fn wj).1 p
        (apply_size_policy cfg w p fn wj).2.1).1 := rfl

theorem att_cleanup_lookup_orig (cfg : Config) (W1 : World) (cur fn p : String)
    (wpo : Option String) :
    fsLookup (cleanup_temp_files (attempt_send_single cfg W1 cur fn wpo).2.1
      cur p wpo).1.fs p = fsLookup W1.fs p := by
  rw [cleanup_lookup_original]
  rw [ass_fs cfg W1 cur fn wpo]

theorem att_cleanup_lookup_none (cfg : Config) (W1 : World) (cur fn p : String)
    (wpo : Option String) (q : String)
    (hcase : fsLookup W1.fs q = none ∨ (q = cur ∧ q ≠ "" ∧ q ≠ p) ∨
      (wpo = some q ∧ q ≠ "" ∧ q ≠ p)) :
    fsLookup (cleanup_temp_files (attempt_send_single cfg W1 cur fn wpo).2.1
      cur p wpo).1.fs q = none := by
  rcases hcase with h0 | ⟨hqc, hne, hnp⟩ | ⟨hwq, hne, hnp⟩
  · apply cleanup_no_new
    rw [ass_fs cfg W1 cur fn wpo]
    exact h0
  · subst hqc
    exact cleanup_current_gone _ _ _ _ hne hnp
  · rw [hwq]
    exact cleanup_wp_gone _ cur p q hne hnp

theorem sfb_frame (cfg : Config) (w : World) (p fn : String) (wj : Option String)
    (hfn : fn = basename p) :
    fsLookup (attempt_send_single_for_batch cfg w p fn wj).2.1.fs p
      = fsLookup w.fs p ∧
    (∀ e ∈ (attempt_send_single_for_batch cfg w p fn wj).2.2,
      e ≠ Event.removeFile p) ∧
    (∀ q, fsLookup w.fs q = none →
      fsLookup (attempt_send_single_for_batch cfg w p fn wj).2.1.fs q = none) := by
  refine ⟨?_, ?_, ?_⟩
  · rw [sfb_world_eq, att_cleanup_lookup_orig]
    exact asp_lookup_ne cfg w p fn wj p
      (fun hc => compressed_path_ne p hc.symm)
      (fun hc => workflow_path_ne p fn (compressed_path p) hfn hc.symm)
  · intro e he
    rw [sfb_events_eq] at he
    rcases List.mem_append.mp he with h12 | h3
    · rcases List.mem_append.mp h12 with h1 | h2
      · rcases asp_events _ _ _ _ _ e h1 with ⟨x, hx⟩ | ⟨x, hx⟩ <;> rw [hx] <;> simp
      · rcases ass_events _ _ _ _ _ e h2 with hx | ⟨flds, hx⟩ <;> rw [hx] <;> simp
    · obtain ⟨y, hy, hyo⟩ := cleanup_events _ _ _ _ e h3
      rw [hy]
      intro hcon
      injection hcon with h'
      exact hyo h'
  · intro q hq
    rw [sfb_world_eq]
    by_cases h : policy_cond cfg w.fs p
    · rcases hc : w.comp with _ | ⟨o, rest⟩
      · rw [asp_comp_nil cfg w p fn wj h hc]
        exact att_cleanup_lookup_none cfg _ p fn p none q (Or.inl hq)
      · cases o with
        | err =>
            rw [asp_comp_err cfg w p fn wj rest h hc]
            exact att_cleanup_lookup_none cfg _ p fn p none q (Or.inl hq)
        | ok s =>
            cases wj with
            | none =>
                rw [asp_ok_nowf cfg w p fn s rest h hc]
                by_cases hqc : q = compressed_path p
                · exact att_cleanup_lookup_none cfg _ _ fn p none q
                    (Or.inr (Or.inl ⟨hqc, hqc ▸ compressed_path_ne_empty p,
                      hqc ▸ compressed_path_ne p⟩))
                · refine att_cleanup_lookup_none cfg _ _ fn p none q (Or.inl ?_)
                  show fsLookup (fsInsert w.fs (compressed_path p) s) q = none
                  rw [fsLookup_insert, if_neg hqc]
                  exact hq
            | some j =>
                rcases hj : w.json with _ | ⟨b, jrest⟩
                · rw [asp_ok_wf_nil cfg w p fn j s rest h hc hj]
                  by_cases hqc : q = compressed_path p
                  · exact att_cleanup_lookup_none cfg _ _ fn p none q
                      (Or.inr (Or.inl ⟨hqc, hqc ▸ compressed_path_ne_empty p,
                        hqc ▸ compressed_path_ne p⟩))
                  · refine att_cleanup_lookup_none cfg _ _ fn p none q (Or.inl ?_)
                    show fsLookup (fsInsert w.fs (compressed_path p) s) q = none
                    rw [fsLookup_insert, if_neg hqc]
                    exact hq
                · cases b with
                  | false =>
                      rw [asp_ok_wf_fail cfg w p fn j s rest jrest h hc hj]
                      by_cases hqc : q = compressed_path p
                      · exact att_cleanup_lookup_none cfg _ _ fn p none q
                          (Or.inr (Or.inl ⟨hqc, hqc ▸ compressed_path_ne_empty p,
                            hqc ▸ compressed_path_ne p⟩))
                      · refine att_cleanup_lookup_none cfg _ _ fn p none q (Or.inl ?_)
                        show fsLookup (fsInsert w.fs (compressed_path p) s) q = none
                        rw [fsLookup_insert, if_neg hqc]
                        exact hq
                  | true =>
                      rw [asp_ok_wf_ok cfg w p fn j s rest jrest h hc hj]
                      by_cases hqc : q = compressed_path p
                      · exact att_cleanup_lookup_none cfg _ _ fn p
                          (some (workflow_path_of (compressed_path p) fn)) q
                          (Or.inr (Or.inl ⟨hqc, hqc ▸ compressed_path_ne_empty p,
                            hqc ▸ compressed_path_ne p⟩))
                      · by_cases hqw : q = workflow_path_of (compressed_path p) fn
                        · exact att_cleanup_lookup_none cfg _ _ fn p
                            (some (workflow_path_of (compressed_path p) fn)) q
                            (Or.inr (Or.inr ⟨by rw [hqw],
                              hqw ▸ workflow_path_of_ne_empty (compressed_path p) fn,
                              hqw ▸ workflow_path_ne p fn (compressed_path p) hfn⟩))
                        · refine att_cleanup_lookup_none cfg _ _ fn p
                            (some (workflow_path_of (compressed_path p) fn)) q
                            (Or.inl ?_)
                          show fsLookup (fsInsert (fsInsert w.fs (compressed_path p) s)
                            (workflow_path_of (compressed_path p) fn) 0) q = none
                          rw [fsLookup_insert, if_neg hqw, fsLookup_insert, if_neg hqc]
                          exact hq
    · rw [asp_off cfg w p fn wj h]
      exact att_cleanup_lookup_none cfg _ p fn p none q (Or.inl hq)

/-! ### No network call without a webhook URL -/

theorem ass_no_net (cfg : Config) (w : World) (p fn : String) (wp : Option String)
    (hurl : cfg.webhook_url = "") :
    ∀ e ∈ (attempt_send_single cfg w p fn wp).2.2, is_net_post e = false := by
  intro e he
  unfold attempt_send_single at he
  by_cases hex : fsExists w.fs p = false
  · rw [if_pos hex] at he
    simp at he
    rw [he]
    rfl
  · rw [if_neg hex] at he
    rcases List.mem_append.mp he with h1 | h2
    · simp at h1
      rw [h1]
      rfl
    · rw [hurl, do_post_empty_url w false (single_fields w.fs p fn wp) 30] at h2
      simp at h2

theorem sfb_no_net (cfg : Config) (w : World) (p fn : String) (wj : Option String)
    (hurl : cfg.webhook_url = "") :
    ∀ e ∈ (attempt_send_single_for_batch cfg w p fn wj).2.2,
      is_net_post e = false := by
  intro e he
  rw [sfb_events_eq] at he
  rcases List.mem_append.mp he with h12 | h3
  · rcases List.mem_append.mp h12 with h1 | h2
    · rcases asp_events _ _ _ _ _ e h1 with ⟨x, hx⟩ | ⟨x, hx⟩ <;> rw [hx] <;> rfl
    · exact ass_no_net cfg _ _ _ _ hurl e h2
  · obtain ⟨y, hy, _⟩ := cleanup_events _ _ _ _ e h3
    rw [hy]
    rfl

theorem asb_events_empty (cfg : Config) (q : List QueuedItem) (w : World)
    (hurl : cfg.webhook_url = "") : (attempt_send_batch cfg q w).2.2 = [] := by
  unfold attempt_send_batch
  rcases hb : build_batch_fields w.fs q 0 0 with _ | l
  · rfl
  · show (do_post w cfg.webhook_url true l 60).2.2 = []
    rw [hurl, do_post_empty_url w true l 60]

theorem fl_no_net (cfg : Config) (hurl : cfg.webhook_url = "") :
    ∀ (q : List QueuedItem) (w : World), ∀ e ∈ (fallback_loop cfg q w).2.2,
      is_net_post e = false := by
  intro q
  induction q with
  | nil =>
      intro w e he
      simp [fallback_loop] at he
  | cons it rest ih =>
      intro w e he
      unfold fallback_loop at he
      rcases List.mem_append.mp he with h1 | h2
      · exact sfb_no_net cfg _ _ _ _ hurl e h1
      · exact ih _ e h2

theorem sbd_no_net (cfg : Config) (st : NodeState) (w : World)
    (hurl : cfg.webhook_url = "") :
    ∀ e ∈ (send_batch_to_discord cfg st w).2.2, is_net_post e = false := by
  by_cases hq : st.image_queue = []
  · rw [sbd_noop cfg st w hq]
    intro e he
    simp at he
  · simp only [send_batch_to_discord, if_neg hq]
    by_cases hb : (attempt_send_batch cfg st.image_queue w).1 = true
    · simp only [hb, if_true]
      intro e he
      rcases List.mem_append.mp he with h1 | h2
      · simp at h1
        rw [h1]
        rfl
      · rw [asb_events_empty cfg st.image_queue w hurl] at h2
        simp at h2
    · by_cases hf : cfg.enable_fallback = true
      · simp only [hb, hf, Bool.false_eq_true, if_false, if_true]
        intro e he
        rcases List.mem_append.mp he with h12 | h3
        · rcases List.mem_append.mp h12 with h1 | h2
          · simp at h1
            rw [h1]
            rfl
          · rw [asb_events_empty cfg st.image_queue w hurl] at h2
            simp at h2
        · exact fl_no_net cfg hurl st.image_queue _ e h3
      · simp only [hb, hf, Bool.false_eq_true, if_false]
        intro e he
        rcases List.mem_append.mp he with h1 | h2
        · simp at h1
          rw [h1]
          rfl
        · rw [asb_events_empty cfg st.image_queue w hurl] at h2
          simp at h2

theorem psp_no_net (cfg : Config) (sf bf : String)
    (ep : Option (List (String × String))) (fp file : String) (st : NodeState)
    (w : World) (hurl : cfg.webhook_url = "") :
    ∀ e ∈ (preview_send_part cfg sf bf ep fp file st w).2.2,
      is_net_post e = false := by
  unfold preview_send_part
  rw [if_neg (fun hc => hc.2 hurl)]
  intro e he
  simp at he

/-! ### The per-image loop of `preview_images` -/

theorem preview_fold_spec (cfg : Config) (folder filename subfolder sf bf : String)
    (ep : Option (List (String × String))) :
    ∀ (images : List Nat) (acc : PrevAcc),
      ((images.foldl (preview_step cfg folder filename subfolder sf bf ep)
          acc).results
        = acc.results ++ (List.range images.length).map
            (fun i => UIResult.mk (file_name_at filename (acc.counter + i))
              subfolder "temp")) ∧
      ((images.foldl (preview_step cfg folder filename subfolder sf bf ep)
          acc).counter = acc.counter + images.length) ∧
      (∃ δ, (images.foldl (preview_step cfg folder filename subfolder sf bf ep)
          acc).evs = acc.evs ++ δ ∧
        ∀ i < images.length,
          Event.createFile (path_join folder (file_name_at filename
            (acc.counter + i))) ∈ δ) := by
  intro images
  induction images with
  | nil =>
      intro acc
      refine ⟨by simp, by simp, [], by simp, ?_⟩
      intro i hi
      simp at hi
  | cons sz rest ih =>
      intro acc
      rw [List.foldl_cons]
      obtain ⟨hres, hcnt, δ2, hevs, hmem⟩ :=
        ih (preview_step cfg folder filename subfolder sf bf ep acc sz)
      refine ⟨?_, ?_, ?_⟩
      · rw [hres]
        show (acc.results ++
            [UIResult.mk (file_name_at filename acc.counter) subfolder "temp"]) ++
            (List.range rest.length).map
              (fun i => UIResult.mk (file_name_at filename (acc.counter + 1 + i))
                subfolder "temp") = _
        rw [List.append_assoc, List.length_cons, List.range_succ_eq_map,
          List.map_cons, List.map_map]
        congr 1
        rw [List.singleton_append]
        congr 1
        apply List.map_congr_left
        intro i _
        show UIResult.mk (file_name_at filename (acc.counter + 1 + i))
            subfolder "temp"
          = UIResult.mk (file_name_at filename (acc.counter + Nat.succ i))
            subfolder "temp"
        rw [show acc.counter + 1 + i = acc.counter + Nat.succ i from by omega]
      · rw [hcnt]
        show acc.counter + 1 + rest.length = _
        rw [List.length_cons]
        omega
      · refine ⟨Event.createFile (path_join folder (file_name_at filename
            acc.counter)) ::
            ((preview_send_part cfg sf bf ep
              (path_join folder (file_name_at filename acc.counter))
              (file_name_at filename acc.counter) acc.st
              (fs_save acc.w (path_join folder (file_name_at filename acc.counter))
                sz)).2.2 ++ δ2), ?_, ?_⟩
        · rw [hevs]
          show (acc.evs ++ Event.createFile _ :: _) ++ δ2 = _
          rw [List.append_assoc, List.cons_append]
        · intro i hi
          rcases i with _ | j
          · rw [Nat.add_zero]
            exact List.mem_cons_self _ _
          · apply List.mem_cons_of_mem
            apply List.mem_append_right
            have hj : j < rest.length := by
              rw [List.length_cons] at hi
              omega
            have := hmem j hj
            show Event.createFile (path_join folder (file_name_at filename
              (acc.counter + (j + 1)))) ∈ δ2
            have harith : acc.counter + (j + 1) = acc.counter + 1 + j := by omega
            rw [harith]
            exact this

theorem pfr_results (cfg : Config) (sf bf : String) (acc : PrevAcc) :
    (preview_flush_remaining cfg sf bf acc).results = acc.results := by
  unfold preview_flush_remaining
  split <;> rfl

theorem pfr_st_counter (cfg : Config) (sf bf : String) (acc : PrevAcc) :
    (preview_flush_remaining cfg sf bf acc).counter = acc.counter := by
  unfold preview_flush_remaining
  split <;> rfl

theorem pfr_evs_mono (cfg : Config) (sf bf : String) (acc : PrevAcc) :
    ∃ δ, (preview_flush_remaining cfg sf bf acc).evs = acc.evs ++ δ := by
  unfold preview_flush_remaining
  split
  · exact ⟨_, rfl⟩
  · exact ⟨[], by rw [List.append_nil]⟩

theorem pwl_results (output_dir : String) (ep : Option (List (String × String)))
    (acc : PrevAcc) : (preview_workflow_log output_dir ep acc).results
      = acc.results := by
  unfold preview_workflow_log
  rcases workflow_of ep with _ | j
  · rfl
  · rcases acc.w.json with _ | ⟨b, rest⟩
    · rfl
    · cases b <;> rfl

theorem pwl_st (output_dir : String) (ep : Option (List (String × String)))
    (acc : PrevAcc) : (preview_workflow_log output_dir ep acc).st = acc.st := by
  unfold preview_workflow_log
  rcases workflow_of ep with _ | j
  · rfl
  · rcases acc.w.json with _ | ⟨b, rest⟩
    · rfl
    · cases b <;> rfl

theorem pwl_evs_mono (output_dir : String) (ep : Option (List (String × String)))
    (acc : PrevAcc) :
    ∃ δ, (preview_workflow_log output_dir ep acc).evs = acc.evs ++ δ ∧
      ∀ e ∈ δ, is_net_post e = false ∧ flush_size e = none := by
  unfold preview_workflow_log
  rcases workflow_of ep with _ | j
  · exact ⟨[], by rw [List.append_nil], by intro e he; simp at he⟩
  · rcases acc.w.json with _ | ⟨b, rest⟩
    · exact ⟨[], by rw [List.append_nil], by intro e he; simp at he⟩
    · cases b
      · exact ⟨[], by rw [List.append_nil], by intro e he; simp at he⟩
      · refine ⟨[Event.createFile _], rfl, ?_⟩
        intro e he
        simp at he
        rw [he]
        exact ⟨rfl, rfl⟩

theorem pfr_no_net (cfg : Config) (sf bf : String) (acc : PrevAcc)
    (hurl : cfg.webhook_url = "")
    (hacc : ∀ e ∈ acc.evs, is_net_post e = false) :
    ∀ e ∈ (preview_flush_remaining cfg sf bf acc).evs, is_net_post e = false := by
  unfold preview_flush_remaining
  split
  · intro e he
    rcases List.mem_append.mp he with h1 | h2
    · exact hacc e h1
    · exact sbd_no_net cfg acc.st acc.w hurl e h2
  · exact hacc

theorem fold_no_net (cfg : Config) (folder filename subfolder sf bf : String)
    (ep : Option (List (String × String))) (hurl : cfg.webhook_url = "") :
    ∀ (images : List Nat) (acc : PrevAcc),
      (∀ e ∈ acc.evs, is_net_post e = false) →
      ∀ e ∈ (images.foldl (preview_step cfg folder filename subfolder sf bf ep)
        acc).evs, is_net_post e = false := by
  intro images
  induction images with
  | nil => intro acc hacc; exact hacc
  | cons sz rest ih =>
      intro acc hacc
      rw [List.foldl_cons]
      apply ih
      intro e he
      show is_net_post e = false
      rcases List.mem_append.mp he with h1 | h2
      · exact hacc e h1
      · rcases List.mem_cons.mp h2 with h3 | h4
        · rw [h3]
          rfl
        · exact psp_no_net cfg sf bf ep _ _ acc.st _ hurl e h4

/-- C7: every invocation persists each input image to disk (one save per
image, at its computed path), returns exactly one UI entry per input
image — fully determined by the counter, independent of every delivery
outcome — returns the passthrough image when given one and the inputs
otherwise, and, when the endpoint URL is empty, never attempts any
network call. -/
theorem C7_results_per_image (cfg : Config) (st : NodeState) (w : World)
    (images : List Nat) (sf bf : String) (pt : Option (List Nat))
    (pr : Option String) (ep : Option (List (String × String)))
    (folder filename subfolder od : String) (c0 : Nat) :
    ((preview_images cfg st w images sf bf pt pr ep folder filename subfolder od
        c0).results
      = (List.range images.length).map
          (fun i => UIResult.mk (file_name_at filename (c0 + i)) subfolder "temp")) ∧
    (∀ i < images.length,
      Event.createFile (path_join folder (file_name_at filename (c0 + i)))
        ∈ (preview_images cfg st w images sf bf pt pr ep folder filename subfolder
            od c0).evs) ∧
    (cfg.webhook_url = "" →
      ∀ e ∈ (preview_images cfg st w images sf bf pt pr ep folder filename
          subfolder od c0).evs, is_net_post e = false) ∧
    (preview_images cfg st w images sf bf pt pr ep folder filename subfolder od
        c0).output = pt.getD images := by
  obtain ⟨hres, hcnt, δ, hevs, hmem⟩ := preview_fold_spec cfg folder filename
    subfolder sf bf ep images (PrevAcc.mk st w [] [] c0)
  set accF := images.foldl
    (preview_step cfg folder filename subfolder sf bf ep)
    (PrevAcc.mk st w [] [] c0) with haccF
  obtain ⟨δ1, hδ1⟩ := pfr_evs_mono cfg sf bf accF
  obtain ⟨δ2, hδ2, hδ2k⟩ := pwl_evs_mono od ep
    (preview_flush_remaining cfg sf bf accF)
  refine ⟨?_, ?_, ?_, rfl⟩
  · show (preview_workflow_log od ep (preview_flush_remaining cfg sf bf
      accF)).results = _
    rw [pwl_results, pfr_results, hres]
    rfl
  · intro i hi
    show Event.createFile _ ∈ (preview_workflow_log od ep
      (preview_flush_remaining cfg sf bf accF)).evs
    rw [hδ2, hδ1, hevs]
    apply List.mem_append_left
    apply List.mem_append_left
    show Event.createFile _ ∈ [] ++ δ
    exact List.mem_append_right _ (hmem i hi)
  · intro hurl e he
    have hfold : ∀ e2 ∈ accF.evs, is_net_post e2 = false := by
      rw [haccF]
      apply fold_no_net cfg folder filename subfolder sf bf ep hurl
      intro e2 he2
      simp at he2
    have hpfr := pfr_no_net cfg sf bf accF hurl hfold
    show is_net_post e = false
    have he' : e ∈ (preview_workflow_log od ep
        (preview_flush_remaining cfg sf bf accF)).evs := he
    rw [hδ2] at he'
    rcases List.mem_append.mp he' with h1 | h2
    · exact hpfr e h1
    · exact (hδ2k e h2).1

/-- C7 witness: two images with an empty webhook URL still yield two UI
entries and save events, with no network call. -/
theorem C7_results_per_image_witness :
    ((preview_images (Config.mk "" 5 true true 80 8) (NodeState.mk [] "Ready")
        (World.mk [] [] [] []) [0, 0] "enable" "enable" none none none
        "out" "ComfyUI" "" "tmp" 1).results
      = (List.range ([0, 0] : List Nat).length).map
          (fun i => UIResult.mk (file_name_at "ComfyUI" (1 + i)) "" "temp")) ∧
    (∀ i < ([0, 0] : List Nat).length,
      Event.createFile (path_join "out" (file_name_at "ComfyUI" (1 + i)))
        ∈ (preview_images (Config.mk "" 5 true true 80 8) (NodeState.mk [] "Ready")
            (World.mk [] [] [] []) [0, 0] "enable" "enable" none none none
            "out" "ComfyUI" "" "tmp" 1).evs) ∧
    ((Config.mk "" 5 true true 80 8).webhook_url = "" →
      ∀ e ∈ (preview_images (Config.mk "" 5 true true 80 8)
          (NodeState.mk [] "Ready") (World.mk [] [] [] []) [0, 0] "enable"
          "enable" none none none "out" "ComfyUI" "" "tmp" 1).evs,
        is_net_post e = false) ∧
    (preview_images (Config.mk "" 5 true true 80 8) (NodeState.mk [] "Ready")
        (World.mk [] [] [] []) [0, 0] "enable" "enable" none none none
        "out" "ComfyUI" "" "tmp" 1).output = (none : Option (List Nat)).getD [0, 0] :=
  C7_results_per_image (Config.mk "" 5 true true 80 8) (NodeState.mk [] "Ready")
    (World.mk [] [] [] []) [0, 0] "enable" "enable" none none none
    "out" "ComfyUI" "" "tmp" 1

/-! ### Batch-threshold behaviour of the loop -/

theorem preview_enqueue_len (ep : Option (List (String × String)))
    (fp file : String) (st : NodeState) :
    (preview_enqueue ep fp file st).image_queue.length
      = st.image_queue.length + 1 := by
  simp [preview_enqueue]

theorem psp_batch_flush (cfg : Config) (ep : Option (List (String × String)))
    (fp file : String) (st : NodeState) (w : World)
    (hurl : cfg.webhook_url ≠ "")
    (hth : cfg.batch_size ≤ st.image_queue.length + 1) :
    preview_send_part cfg "enable" "enable" ep fp file st w
      = send_batch_to_discord cfg (preview_enqueue ep fp file st) w := by
  unfold preview_send_part
  rw [if_pos ⟨rfl, hurl⟩, if_pos rfl,
    if_pos (by rw [preview_enqueue_len]; exact hth)]

theorem psp_batch_noflush (cfg : Config) (ep : Option (List (String × String)))
    (fp file : String) (st : NodeState) (w : World)
    (hurl : cfg.webhook_url ≠ "")
    (hth : ¬ cfg.batch_size ≤ st.image_queue.length + 1) :
    preview_send_part cfg "enable" "enable" ep fp file st w
      = (preview_enqueue ep fp file st, w, []) := by
  unfold preview_send_part
  rw [if_pos ⟨rfl, hurl⟩, if_pos rfl,
    if_neg (by rw [preview_enqueue_len]; exact hth)]

theorem preview_fold_batch (cfg : Config) (folder filename subfolder : String)
    (ep : Option (List (String × String)))
    (hurl : cfg.webhook_url ≠ "") (hbs : 0 < cfg.batch_size) :
    ∀ (images : List Nat) (acc : PrevAcc),
      acc.st.image_queue.length < cfg.batch_size →
      ((images.foldl (preview_step cfg folder filename subfolder "enable"
          "enable" ep) acc).st.image_queue.length
        = (acc.st.image_queue.length + images.length) % cfg.batch_size) ∧
      ((images.foldl (preview_step cfg folder filename subfolder "enable"
          "enable" ep) acc).evs.filterMap flush_size
        = acc.evs.filterMap flush_size ++
          List.replicate ((acc.st.image_queue.length + images.length)
            / cfg.batch_size) cfg.batch_size) := by
  intro images
  induction images with
  | nil =>
      intro acc hacc
      constructor
      · rw [List.foldl_nil, List.length_nil, Nat.add_zero, Nat.mod_eq_of_lt hacc]
      · rw [List.foldl_nil, List.length_nil, Nat.add_zero, Nat.div_eq_of_lt hacc]
        simp
  | cons sz rest ih =>
      intro acc hacc
      rw [List.foldl_cons]
      by_cases hth : cfg.batch_size ≤ acc.st.image_queue.length + 1
      · have hk1 : acc.st.image_queue.length + 1 = cfg.batch_size := by omega
        have hstep : (preview_step cfg folder filename subfolder "enable"
            "enable" ep acc sz).st.image_queue.length = 0 := by
          show (preview_send_part cfg "enable" "enable" ep _ _ acc.st
            _).1.image_queue.length = 0
          rw [psp_batch_flush cfg ep _ _ acc.st _ hurl hth, sbd_clears]
          rfl
        obtain ⟨ihlen, ihflush⟩ := ih (preview_step cfg folder filename subfolder
          "enable" "enable" ep acc sz) (by rw [hstep]; exact hbs)
        have hq1 : (preview_enqueue ep
            (path_join folder (file_name_at filename acc.counter))
            (file_name_at filename acc.counter) acc.st).image_queue ≠ [] := by
          intro hc
          have := preview_enqueue_len ep
            (path_join folder (file_name_at filename acc.counter))
            (file_name_at filename acc.counter) acc.st
          rw [hc] at this
          simp at this
        have hstepflush : (preview_step cfg folder filename subfolder "enable"
            "enable" ep acc sz).evs.filterMap flush_size
            = acc.evs.filterMap flush_size ++ [cfg.batch_size] := by
          show (acc.evs ++ Event.createFile _ ::
            (preview_send_part cfg "enable" "enable" ep _ _ acc.st
              _).2.2).filterMap flush_size = _
          rw [psp_batch_flush cfg ep _ _ acc.st _ hurl hth]
          rw [List.filterMap_append, List.filterMap_cons]
          rw [sbd_flush_sizes cfg _ _ hq1, preview_enqueue_len, hk1]
          rfl
        constructor
        · rw [ihlen, hstep, List.length_cons]
          rw [show acc.st.image_queue.length + (rest.length + 1)
            = rest.length + cfg.batch_size from by omega]
          rw [Nat.add_mod_right, Nat.zero_add]
        · rw [ihflush, hstepflush, hstep, List.length_cons]
          rw [show acc.st.image_queue.length + (rest.length + 1)
            = rest.length + cfg.batch_size from by omega]
          rw [Nat.add_div_right _ hbs, Nat.zero_add]
          rw [List.append_assoc]
          congr 1
      · have hlt : acc.st.image_queue.length + 1 < cfg.batch_size := by omega
        have hstep : (preview_step cfg folder filename subfolder "enable"
            "enable" ep acc sz).st.image_queue.length
            = acc.st.image_queue.length + 1 := by
          show (preview_send_part cfg "enable" "enable" ep _ _ acc.st
            _).1.image_queue.length = _
          rw [psp_batch_noflush cfg ep _ _ acc.st _ hurl hth]
          exact preview_enqueue_len _ _ _ _
        obtain ⟨ihlen, ihflush⟩ := ih (preview_step cfg folder filename subfolder
          "enable" "enable" ep acc sz) (by rw [hstep]; exact hlt)
        have hstepflush : (preview_step cfg folder filename subfolder "enable"
            "enable" ep acc sz).evs.filterMap flush_size
            = acc.evs.filterMap flush_size := by
          show (acc.evs ++ Event.createFile _ ::
            (preview_send_part cfg "enable" "enable" ep _ _ acc.st
              _).2.2).filterMap flush_size = _
          rw [psp_batch_noflush cfg ep _ _ acc.st _ hurl hth]
          rw [List.filterMap_append, List.filterMap_cons]
          simp [flush_size]
        constructor
        · rw [ihlen, hstep, List.length_cons]
          rw [show acc.st.image_queue.length + 1 + rest.length
            = acc.st.image_queue.length + (rest.length + 1) from by omega]
        · rw [ihflush, hstepflush, hstep, List.length_cons]
          rw [show acc.st.image_queue.length + 1 + rest.length
            = acc.st.image_queue.length + (rest.length + 1) from by omega]

theorem pwl_flush_filter (output_dir : String)
    (ep : Option (List (String × String))) (acc : PrevAcc) :
    (preview_workflow_log output_dir ep acc).evs.filterMap flush_size
      = acc.evs.filterMap flush_size := by
  obtain ⟨δ, hδ, hk⟩ := pwl_evs_mono output_dir ep acc
  rw [hδ, List.filterMap_append]
  have : δ.filterMap flush_size = [] := by
    rw [List.filterMap_eq_nil_iff]
    intro e he
    exact (hk e he).2
  rw [this, List.append_nil]

/-! ### MIME type of the compressed copy -/

theorem to_lower_data (s : String) : (to_lower s).data = s.data.map Char.toLower := rfl

theorem compressed_path_data (p : String) :
    ∃ y, (compressed_path p).data = y ++ "_compressed.webp".data := by
  obtain ⟨y, hy⟩ := path_join_data (dirname p)
    (splitext_base (basename p) ++ "_compressed.webp")
  refine ⟨y ++ (splitext_base (basename p)).data, ?_⟩
  show (path_join (dirname p) (splitext_base (basename p) ++ "_compressed.webp")).data = _
  rw [hy, String.data_append, List.append_assoc]

theorem mime_compressed (p : String) :
    get_mime_type (compressed_path p) = "image/webp" := by
  obtain ⟨y, hy⟩ := compressed_path_data p
  have hend : ends_with (to_lower (compressed_path p)) ".webp" = true := by
    apply ends_with_of_data _ _
      (y.map Char.toLower ++ "_compressed".data.map Char.toLower)
    rw [to_lower_data, hy, List.map_append]
    have hc : "_compressed.webp".data.map Char.toLower
        = "_compressed".data.map Char.toLower ++ ".webp".data := by decide
    rw [hc, List.append_assoc]
  unfold get_mime_type
  rw [if_pos hend]

/-! ## Claims -/

/-- C5: after every individual send attempt — immediate
(`send_to_discord`) or per-item fallback
(`_attempt_send_single_for_batch`) — and regardless of its outcome
(every compression, sidecar, and network oracle outcome is quantified
over), cleanup has run: the original persisted image is untouched (same
filesystem entry, and no `removeFile` event ever names it), and every
file that did not exist before the attempt — i.e. every derived file
created during it (compressed copy, sidecar JSON) — is gone from the
filesystem when the call returns; `os.remove` errors are swallowed
inside `_cleanup_temp_files`, which always returns normally. The
hypothesis `fn = basename p` is the caller's invariant (`preview_images`
always passes the file's own basename as its display name). -/
theorem C5_cleanup_frame (cfg : Config) (st : NodeState) (w : World)
    (p fn : String) (wj : Option String) (hfn : fn = basename p) :
    (fsLookup (send_to_discord cfg st w p fn wj).2.1.fs p = fsLookup w.fs p ∧
     (∀ e ∈ (send_to_discord cfg st w p fn wj).2.2, e ≠ Event.removeFile p) ∧
     (∀ q, fsLookup w.fs q = none →
       fsLookup (send_to_discord cfg st w p fn wj).2.1.fs q = none)) ∧
    (fsLookup (attempt_send_single_for_batch cfg w p fn wj).2.1.fs p
        = fsLookup w.fs p ∧
     (∀ e ∈ (attempt_send_single_for_batch cfg w p fn wj).2.2,
       e ≠ Event.removeFile p) ∧
     (∀ q, fsLookup w.fs q = none →
       fsLookup (attempt_send_single_for_batch cfg w p fn wj).2.1.fs q = none)) := by
  have hW : (send_to_discord cfg st w p fn wj).2.1
      = (attempt_send_single_for_batch cfg w p fn wj).2.1 :=
    congrArg Prod.fst (send_sfb_same cfg st w p fn wj)
  have hE : (send_to_discord cfg st w p fn wj).2.2
      = (attempt_send_single_for_batch cfg w p fn wj).2.2 :=
    congrArg Prod.snd (send_sfb_same cfg st w p fn wj)
  obtain ⟨h1, h2, h3⟩ := sfb_frame cfg w p fn wj hfn
  refine ⟨⟨?_, ?_, ?_⟩, h1, h2, h3⟩
  · rw [hW]
    exact h1
  · rw [hE]
    exact h2
  · intro q hq
    rw [hW]
    exact h3 q hq

/-- C5 witness: a concrete compressed send with sidecar leaves the 10 MB
original in place and no trace of the two derived files. -/
theorem C5_cleanup_frame_witness :
    ("img.png" = basename "out/img.png") ∧
    ((fsLookup (send_to_discord (Config.mk "https://hook" 5 true true 80 8)
        (NodeState.mk [] "Ready")
        (World.mk [("out/img.png", 10485760)] [NetOutcome.status 200]
          [CompOutcome.ok 1000] [true])
        "out/img.png" "img.png" (some "WF")).2.1.fs "out/img.png"
        = fsLookup (World.mk [("out/img.png", 10485760)] [NetOutcome.status 200]
            [CompOutcome.ok 1000] [true]).fs "out/img.png" ∧
      (∀ e ∈ (send_to_discord (Config.mk "https://hook" 5 true true 80 8)
          (NodeState.mk [] "Ready")
          (World.mk [("out/img.png", 10485760)] [NetOutcome.status 200]
            [CompOutcome.ok 1000] [true])
          "out/img.png" "img.png" (some "WF")).2.2,
        e ≠ Event.removeFile "out/img.png") ∧
      (∀ q, fsLookup (World.mk [("out/img.png", 10485760)] [NetOutcome.status 200]
            [CompOutcome.ok 1000] [true]).fs q = none →
        fsLookup (send_to_discord (Config.mk "https://hook" 5 true true 80 8)
          (NodeState.mk [] "Ready")
          (World.mk [("out/img.png", 10485760)] [NetOutcome.status 200]
            [CompOutcome.ok 1000] [true])
          "out/img.png" "img.png" (some "WF")).2.1.fs q = none)) ∧
     (fsLookup (attempt_send_single_for_batch
          (Config.mk "https://hook" 5 true true 80 8)
          (World.mk [("out/img.png", 10485760)] [NetOutcome.status 200]
            [CompOutcome.ok 1000] [true])
          "out/img.png" "img.png" (some "WF")).2.1.fs "out/img.png"
        = fsLookup (World.mk [("out/img.png", 10485760)] [NetOutcome.status 200]
            [CompOutcome.ok 1000] [true]).fs "out/img.png" ∧
      (∀ e ∈ (attempt_send_single_for_batch
          (Config.mk "https://hook" 5 true true 80 8)
          (World.mk [("out/img.png", 10485760)] [NetOutcome.status 200]
            [CompOutcome.ok 1000] [true])
          "out/img.png" "img.png" (some "WF")).2.2,
        e ≠ Event.removeFile "out/img.png") ∧
      (∀ q, fsLookup (World.mk [("out/img.png", 10485760)] [NetOutcome.status 200]
            [CompOutcome.ok 1000] [true]).fs q = none →
        fsLookup (attempt_send_single_for_batch
          (Config.mk "https://hook" 5 true true 80 8)
          (World.mk [("out/img.png", 10485760)] [NetOutcome.status 200]
            [CompOutcome.ok 1000] [true])
          "out/img.png" "img.png" (some "WF")).2.1.fs q = none))) :=
  ⟨by decide,
   C5_cleanup_frame (Config.mk "https://hook" 5 true true 80 8)
     (NodeState.mk [] "Ready")
     (World.mk [("out/img.png", 10485760)] [NetOutcome.status 200]
       [CompOutcome.ok 1000] [true])
     "out/img.png" "img.png" (some "WF") (by decide)⟩

/-- C4: for every individual send — immediate (`send_to_discord`) or
per-item fallback (`_attempt_send_single_for_batch`) — compression is
invoked if and only if compression is enabled and the file's size
strictly exceeds the configured max-size threshold; when that condition
fails (compression disabled, or size within bounds) the posted multipart
content is exactly the original file, untransformed. -/
theorem C4_compression_policy (cfg : Config) (st : NodeState) (w : World)
    (p fn : String) (wj : Option String) :
    ((∃ x, Event.compressCall x ∈ (send_to_discord cfg st w p fn wj).2.2) ↔
      (cfg.enable_compression = true ∧
        cfg.max_file_size_mb < get_file_size_mb w.fs p)) ∧
    ((∃ x, Event.compressCall x ∈
        (attempt_send_single_for_batch cfg w p fn wj).2.2) ↔
      (cfg.enable_compression = true ∧
        cfg.max_file_size_mb < get_file_size_mb w.fs p)) ∧
    (¬ (cfg.enable_compression = true ∧
        cfg.max_file_size_mb < get_file_size_mb w.fs p) →
      ∀ (b : Bool) (flds : List MPField) (t : Nat),
        (Event.netPost b flds t ∈ (send_to_discord cfg st w p fn wj).2.2 ∨
         Event.netPost b flds t ∈
           (attempt_send_single_for_batch cfg w p fn wj).2.2) →
        flds = [MPField.mk "file" fn (get_mime_type p) p]) := by
  have hsend : (send_to_discord cfg st w p fn wj).2.2
      = (attempt_send_single_for_batch cfg w p fn wj).2.2 :=
    congrArg Prod.snd (send_sfb_same cfg st w p fn wj)
  refine ⟨?_, ?_, ?_⟩
  · rw [hsend, sfb_compress_iff]
    exact policy_cond_iff cfg w.fs p
  · rw [sfb_compress_iff]
    exact policy_cond_iff cfg w.fs p
  · intro h b flds t hmem
    have h' : ¬ policy_cond cfg w.fs p :=
      fun hc => h ((policy_cond_iff cfg w.fs p).mp hc)
    rcases hmem with hm | hm
    · rw [hsend] at hm
      exact sfb_untransformed cfg w p fn wj h' b flds t hm
    · exact sfb_untransformed cfg w p fn wj h' b flds t hm

/-- C4 witness: a 10 MB file against an 8 MB threshold with compression
enabled does invoke compression on the immediate path. -/
theorem C4_compression_policy_witness :
    (∃ x, Event.compressCall x ∈
      (send_to_discord (Config.mk "https://hook" 5 true true 80 8)
        (NodeState.mk [] "Ready")
        (World.mk [("out/a.png", 10485760)] [NetOutcome.status 200]
          [CompOutcome.ok 1000] [])
        "out/a.png" "a.png" none).2.2) :=
  (C4_compression_policy (Config.mk "https://hook" 5 true true 80 8)
      (NodeState.mk [] "Ready")
      (World.mk [("out/a.png", 10485760)] [NetOutcome.status 200]
        [CompOutcome.ok 1000] [])
      "out/a.png" "a.png" none).1.mpr
    ⟨rfl, (get_file_size_mb_gt_iff _ "out/a.png" 8).mp (by decide)⟩

/-- C10: the batch attempt never compresses, never touches the
filesystem, and attaches no sidecar — its only possible event is the one
batch POST, whose fields are exactly one per queued item, named
`file0..file(n-1)`, carrying each item's display filename and its
original file content as enqueued; the per-file size/compression policy
belongs only to the immediate and per-item fallback paths, where it runs
iff its condition holds. -/
theorem C10_batch_payload (cfg : Config) (q : List QueuedItem) (w : World)
    (st : NodeState) (p fn : String) (wj : Option String) :
    (∀ e ∈ (attempt_send_batch cfg q w).2.2,
      is_net_post e = true ∧ is_batch_post e = true) ∧
    (∀ (flds : List MPField) (t : Nat),
      Event.netPost true flds t ∈ (attempt_send_batch cfg q w).2.2 →
      flds.map (fun f => f.src) = q.map (fun it => it.path) ∧
      flds.map (fun f => f.fname) = q.map (fun it => it.filename) ∧
      flds.map (fun f => f.name)
        = (List.range q.length).map (fun k => "file" ++ toString k)) ∧
    ((∃ x, Event.compressCall x ∈ (send_to_discord cfg st w p fn wj).2.2) ↔
      policy_cond cfg w.fs p) ∧
    ((∃ x, Event.compressCall x ∈
        (attempt_send_single_for_batch cfg w p fn wj).2.2) ↔
      policy_cond cfg w.fs p) := by
  refine ⟨?_, ?_, ?_, sfb_compress_iff cfg w p fn wj⟩
  · intro e he
    obtain ⟨flds, hf, _⟩ := asb_events cfg q w e he
    rw [hf]
    exact ⟨rfl, rfl⟩
  · intro flds t hmem
    obtain ⟨flds2, hf, hb⟩ := asb_events cfg q w _ hmem
    injection hf with h1 h2
    subst h2
    obtain ⟨_, _, hsrc, hfn2, hname⟩ := build_some_parts w.fs q 0 0 _ hb
    refine ⟨hsrc, hfn2, ?_⟩
    rw [List.range_eq_range']
    exact hname
  · rw [show (send_to_discord cfg st w p fn wj).2.2
        = (attempt_send_single_for_batch cfg w p fn wj).2.2 from
      congrArg Prod.snd (send_sfb_same cfg st w p fn wj)]
    exact sfb_compress_iff cfg w p fn wj

/-- C10 witness: a two-item batch posts exactly the two original files
under fields `file0`, `file1`. -/
theorem C10_batch_payload_witness :
    ∀ (flds : List MPField) (t : Nat),
      Event.netPost true flds t ∈
        (attempt_send_batch (Config.mk "https://hook" 5 true true 80 8)
          [QueuedItem.mk "a/x.png" "x.png" none,
           QueuedItem.mk "a/y.png" "y.png" (some "WF")]
          (World.mk [("a/x.png", 100), ("a/y.png", 200)]
            [NetOutcome.status 200] [] [])).2.2 →
      flds.map (fun f => f.src) = ["a/x.png", "a/y.png"] ∧
      flds.map (fun f => f.fname) = ["x.png", "y.png"] ∧
      flds.map (fun f => f.name)
        = (List.range 2).map (fun k => "file" ++ toString k) :=
  (C10_batch_payload (Config.mk "https://hook" 5 true true 80 8)
    [QueuedItem.mk "a/x.png" "x.png" none,
     QueuedItem.mk "a/y.png" "y.png" (some "WF")]
    (World.mk [("a/x.png", 100), ("a/y.png", 200)] [NetOutcome.status 200] [] [])
    (NodeState.mk [] "Ready") "a/x.png" "x.png" none).2.1

/-- C1: a queued batch whose combined size exceeds the 25 MB ceiling
makes the batch attempt return `False` without changing the world and
without emitting any event — in particular no network call; and with
fallback enabled, the flush then attempts an individual send for every
item that was in the queue (one `singleAttempt` per item, in order), and
still never issues a batch POST. -/
theorem C1_oversize_batch (cfg : Config) (st : NodeState) (w : World)
    (h : 25 * 1024 * 1024 < sum_sizes_bytes w.fs st.image_queue) :
    attempt_send_batch cfg st.image_queue w = (false, w, []) ∧
    (cfg.enable_fallback = true →
      (send_batch_to_discord cfg st w).2.2.filterMap single_name
        = st.image_queue.map (fun it => it.filename) ∧
      ∀ e ∈ (send_batch_to_discord cfg st w).2.2, is_batch_post e = false) := by
  have hq : ¬ st.image_queue = [] := by
    intro h0
    rw [h0] at h
    simp [sum_sizes_bytes] at h
  have hasb := asb_oversize cfg st.image_queue w h
  refine ⟨hasb, ?_⟩
  intro hf
  simp only [send_batch_to_discord, if_neg hq, hasb, hf, Bool.false_eq_true,
    if_false, if_true]
  constructor
  · rw [List.filterMap_append, List.filterMap_append, fl_single_names]
    rfl
  · intro e he
    simp only [List.mem_append] at he
    rcases he with (h1 | h2) | h3
    · simp at h1
      rw [h1]
      rfl
    · simp at h2
    · exact (fl_event_kinds cfg st.image_queue w e h3).2

/-- C1 witness: two 15 MB images exceed the ceiling; the batch attempt
aborts with no event, and fallback attempts both items individually. -/
theorem C1_oversize_batch_witness :
    (25 * 1024 * 1024 <
      sum_sizes_bytes
        (World.mk [("a/x.png", 15728640), ("a/y.png", 15728640)]
          [NetOutcome.status 200, NetOutcome.status 200] [] []).fs
        [QueuedItem.mk "a/x.png" "x.png" none,
         QueuedItem.mk "a/y.png" "y.png" none]) ∧
    attempt_send_batch (Config.mk "https://hook" 5 true false 80 8)
        [QueuedItem.mk "a/x.png" "x.png" none,
         QueuedItem.mk "a/y.png" "y.png" none]
        (World.mk [("a/x.png", 15728640), ("a/y.png", 15728640)]
          [NetOutcome.status 200, NetOutcome.status 200] [] [])
      = (false,
         World.mk [("a/x.png", 15728640), ("a/y.png", 15728640)]
           [NetOutcome.status 200, NetOutcome.status 200] [] [], []) ∧
    (send_batch_to_discord (Config.mk "https://hook" 5 true false 80 8)
        (NodeState.mk [QueuedItem.mk "a/x.png" "x.png" none,
          QueuedItem.mk "a/y.png" "y.png" none] "Ready")
        (World.mk [("a/x.png", 15728640), ("a/y.png", 15728640)]
          [NetOutcome.status 200, NetOutcome.status 200] [] [])).2.2.filterMap
      single_name = ["x.png", "y.png"] := by
  have h := C1_oversize_batch (Config.mk "https://hook" 5 true false 80 8)
    (NodeState.mk [QueuedItem.mk "a/x.png" "x.png" none,
      QueuedItem.mk "a/y.png" "y.png" none] "Ready")
    (World.mk [("a/x.png", 15728640), ("a/y.png", 15728640)]
      [NetOutcome.status 200, NetOutcome.status 200] [] [])
    (by decide)
  exact ⟨by decide, h.1, (h.2 rfl).1⟩

/-- Whether a post event carries no `file1` (sidecar) field; non-post
events pass vacuously. -/
def post_has_no_file1 : Event → Bool
  | Event.netPost _ flds _ => flds.all (fun f => f.name != "file1")
  | _ => true

/-- C8 counterexample: an individual send of an item that carries a
sidecar metadata blob (`workflow_json = some "WF"`), with compression
disabled, persists no derived file at all and posts a multipart body
with no `file1` field — the sidecar is neither persisted nor attached,
because the source only creates and attaches it inside the compression
branch. -/
theorem C8_counterexample :
    ((send_to_discord (Config.mk "https://hook" 5 true false 80 8)
        (NodeState.mk [] "Ready")
        (World.mk [("out/img.png", 1048576)] [NetOutcome.status 200] [] [])
        "out/img.png" "img.png" (some "WF")).2.2.all
      (fun e => !(is_create e)) = true) ∧
    ((send_to_discord (Config.mk "https://hook" 5 true false 80 8)
        (NodeState.mk [] "Ready")
        (World.mk [("out/img.png", 1048576)] [NetOutcome.status 200] [] [])
        "out/img.png" "img.png" (some "WF")).2.2.all post_has_no_file1 = true) := by
  decide

/-- C8 (amended): the sidecar blob is persisted and attached only as
part of the compression branch: when compression is enabled, the file
exceeds the threshold, the compression and the sidecar write succeed,
and the URL is non-empty, then the sidecar is persisted as a derived
file and the same send posts it as the second multipart field `file1`
alongside the compressed image; on sends where compression is not
invoked or fails, no sidecar is created or attached (see the
counterexample). -/
theorem C8_sidecar_on_compression (cfg : Config) (st : NodeState) (w : World)
    (p fn j : String) (s : Nat) (rest : List CompOutcome) (jrest : List Bool)
    (hc : cfg.enable_compression = true)
    (hs : cfg.max_file_size_mb < get_file_size_mb w.fs p)
    (hcomp : w.comp = CompOutcome.ok s :: rest)
    (hjson : w.json = true :: jrest)
    (hurl : cfg.webhook_url ≠ "") :
    Event.createFile (workflow_path_of (compressed_path p) fn)
      ∈ (send_to_discord cfg st w p fn (some j)).2.2 ∧
    Event.netPost false
      [MPField.mk "file" fn "image/webp" (compressed_path p),
       MPField.mk "file1" (basename (workflow_path_of (compressed_path p) fn))
         "application/json" (workflow_path_of (compressed_path p) fn)] 30
      ∈ (send_to_discord cfg st w p fn (some j)).2.2 := by
  have hcond : policy_cond cfg w.fs p :=
    ⟨hc, (get_file_size_mb_gt_iff w.fs p cfg.max_file_size_mb).mpr hs⟩
  have hsame : (send_to_discord cfg st w p fn (some j)).2.2
      = (attempt_send_single_for_batch cfg w p fn (some j)).2.2 :=
    congrArg Prod.snd (send_sfb_same cfg st w p fn (some j))
  rw [hsame, sfb_events_eq]
  rw [asp_ok_wf_ok cfg w p fn j s rest jrest hcond hcomp hjson]
  set cp := compressed_path p with hcp
  set wp := workflow_path_of (compressed_path p) fn with hwp
  set W1 : World := World.mk (fsInsert (fsInsert w.fs cp s) wp 0) w.net rest jrest
    with hW1
  have hexwp : fsExists W1.fs wp = true := by
    show (fsLookup (fsInsert (fsInsert w.fs cp s) wp 0) wp).isSome = true
    rw [fsLookup_insert]
    simp
  have hexcp : ¬ fsExists W1.fs cp = false := by
    show ¬ (fsLookup (fsInsert (fsInsert w.fs cp s) wp 0) cp).isSome = false
    rw [fsLookup_insert]
    by_cases hcw : cp = wp
    · simp [hcw]
    · rw [if_neg hcw, fsLookup_insert, if_pos rfl]
      simp
  have hq : wp ≠ "" ∧ fsExists W1.fs wp = true :=
    ⟨workflow_path_of_ne_empty (compressed_path p) fn, hexwp⟩
  constructor
  · simp only [List.mem_append]
    left
    left
    simp
  · simp only [List.mem_append]
    left
    right
    show Event.netPost false _ 30 ∈ (attempt_send_single cfg W1 cp fn (some wp)).2.2
    rw [ass_eq_some_wp cfg W1 cp fn wp hexcp hq]
    refine List.mem_cons_of_mem _ ?_
    have hpost := do_post_emits W1 cfg.webhook_url false
      [MPField.mk "file" fn (get_mime_type cp) cp,
       MPField.mk "file1" (basename wp) "application/json" wp] 30 hurl
    rw [hcp] at hpost ⊢
    rw [mime_compressed p] at hpost ⊢
    exact hpost

/-- C8 witness: a concrete compressed send carrying a sidecar posts the
sidecar as field `file1` and creates the derived JSON file. -/
theorem C8_sidecar_on_compression_witness :
    Event.createFile (workflow_path_of (compressed_path "out/img.png") "img.png")
      ∈ (send_to_discord (Config.mk "https://hook" 5 true true 80 8)
          (NodeState.mk [] "Ready")
          (World.mk [("out/img.png", 10485760)] [NetOutcome.status 200]
            [CompOutcome.ok 1000] [true])
          "out/img.png" "img.png" (some "WF")).2.2 ∧
    Event.netPost false
      [MPField.mk "file" "img.png" "image/webp" (compressed_path "out/img.png"),
       MPField.mk "file1"
         (basename (workflow_path_of (compressed_path "out/img.png") "img.png"))
         "application/json"
         (workflow_path_of (compressed_path "out/img.png") "img.png")] 30
      ∈ (send_to_discord (Config.mk "https://hook" 5 true true 80 8)
          (NodeState.mk [] "Ready")
          (World.mk [("out/img.png", 10485760)] [NetOutcome.status 200]
            [CompOutcome.ok 1000] [true])
          "out/img.png" "img.png" (some "WF")).2.2 :=
  C8_sidecar_on_compression (Config.mk "https://hook" 5 true true 80 8)
    (NodeState.mk [] "Ready")
    (World.mk [("out/img.png", 10485760)] [NetOutcome.status 200]
      [CompOutcome.ok 1000] [true])
    "out/img.png" "img.png" "WF" 1000 [] [] rfl
    ((get_file_size_mb_gt_iff _ "out/img.png" 8).mp (by decide)) rfl rfl (by decide)

/-- C9 counterexample: a palette-mode image without transparency is
passed to compression, yet it is normalized neither to RGB (as the claim
asserts for images without alpha or palette transparency) nor to RGBA:
the mode-reconciliation step leaves it in mode `P`. -/
theorem C9_counterexample :
    ¬ (webp_convert_mode "P" false = "RGB" ∨ webp_convert_mode "P" false = "RGBA") := by
  decide

/-- C9 (amended): images whose mode is RGBA, LA, or P-with-transparency
end up in full RGBA; images whose mode is outside {RGBA, LA, P} are
normalized to RGB; a palette image without transparency is left in
palette mode unchanged. -/
theorem C9_mode_reconciliation (mode : String) (t : Bool) :
    ((mode = "RGBA" ∨ mode = "LA" ∨ (mode = "P" ∧ t = true)) →
      webp_convert_mode mode t = "RGBA") ∧
    ((¬ (mode = "RGBA" ∨ mode = "LA" ∨ mode = "P")) →
      webp_convert_mode mode t = "RGB") ∧
    webp_convert_mode "P" false = "P" := by
  refine ⟨?_, ?_, by decide⟩
  · rintro (h | h | ⟨h, ht⟩)
    · subst h; simp [webp_convert_mode]
    · subst h; simp [webp_convert_mode]
    · subst h; subst ht; decide
  · intro h
    unfold webp_convert_mode
    rw [if_neg h]

/-- C9 witness: an LA image (alpha channel) is normalized to RGBA. -/
theorem C9_mode_reconciliation_witness :
    ("LA" = "RGBA" ∨ "LA" = "LA" ∨ ("LA" = "P" ∧ true = true)) ∧
      webp_convert_mode "LA" true = "RGBA" :=
  ⟨by decide, (C9_mode_reconciliation "LA" true).1 (by decide)⟩

/-- C3: after any flush of the queue — batch success, per-item fallback,
or batch failure with fallback disabled — the queue is empty, and
flushing again from the resulting state is a complete no-op, so failed
items are dropped and never retried on a later flush. -/
theorem C3_queue_cleared (cfg : Config) (st : NodeState) (w w2 : World) :
    (send_batch_to_discord cfg st w).1.image_queue = [] ∧
    send_batch_to_discord cfg (send_batch_to_discord cfg st w).1 w2
      = ((send_batch_to_discord cfg st w).1, w2, []) :=
  ⟨sbd_clears cfg st w, sbd_noop cfg _ w2 (sbd_clears cfg st w)⟩

/-- C3 witness: a concrete failed flush (fallback disabled, post fails)
still leaves the queue empty and a later flush is a no-op. -/
theorem C3_queue_cleared_witness :
    (send_batch_to_discord (Config.mk "https://hook" 5 false true 80 8)
        (NodeState.mk [QueuedItem.mk "a/x.png" "x.png" none] "Ready")
        (World.mk [("a/x.png", 100)] [NetOutcome.err] [] [])).1.image_queue = [] ∧
    send_batch_to_discord (Config.mk "https://hook" 5 false true 80 8)
        (send_batch_to_discord (Config.mk "https://hook" 5 false true 80 8)
          (NodeState.mk [QueuedItem.mk "a/x.png" "x.png" none] "Ready")
          (World.mk [("a/x.png", 100)] [NetOutcome.err] [] [])).1
        (World.mk [] [] [] [])
      = ((send_batch_to_discord (Config.mk "https://hook" 5 false true 80 8)
          (NodeState.mk [QueuedItem.mk "a/x.png" "x.png" none] "Ready")
          (World.mk [("a/x.png", 100)] [NetOutcome.err] [] [])).1,
         (World.mk [] [] [] []), []) :=
  C3_queue_cleared (Config.mk "https://hook" 5 false true 80 8)
    (NodeState.mk [QueuedItem.mk "a/x.png" "x.png" none] "Ready")
    (World.mk [("a/x.png", 100)] [NetOutcome.err] [] [])
    (World.mk [] [] [] [])

/-- C6: both transport operations return a plain boolean; the result is
`true` exactly when an HTTP 200 came back, which requires a non-empty
URL, readable files, and (for the batch) the 25 MB ceiling respected; a
transport exception (`NetOutcome.err`) or non-200 status yields `false`,
never a propagated exception. -/
theorem C6_transport_boolean (cfg : Config) (w : World) (p fn : String)
    (wp : Option String) (q : List QueuedItem) :
    ((attempt_send_single cfg w p fn wp).1 = true ↔
      (cfg.webhook_url ≠ "" ∧ fsExists w.fs p = true ∧
        w.net.headD NetOutcome.err = NetOutcome.status 200)) ∧
    ((attempt_send_batch cfg q w).1 = true ↔
      (cfg.webhook_url ≠ "" ∧ (∀ it ∈ q, fsExists w.fs it.path = true) ∧
        sum_sizes_bytes w.fs q ≤ 25 * 1024 * 1024 ∧
        w.net.headD NetOutcome.err = NetOutcome.status 200)) :=
  ⟨ass_true_iff cfg w p fn wp, asb_true_iff cfg q w⟩

/-- C6 witness: on a network exception the single send returns `false`;
with a 200 status the batch send returns `true`. -/
theorem C6_transport_boolean_witness :
    ((attempt_send_single (Config.mk "https://hook" 5 true true 80 8)
        (World.mk [("a/x.png", 100)] [NetOutcome.err] [] [])
        "a/x.png" "x.png" none).1 = true ↔
      ("https://hook" ≠ "" ∧
        fsExists (World.mk [("a/x.png", 100)] [NetOutcome.err] [] []).fs "a/x.png" = true ∧
        (World.mk [("a/x.png", 100)] [NetOutcome.err] [] []).net.headD NetOutcome.err
          = NetOutcome.status 200)) ∧
    ((attempt_send_batch (Config.mk "https://hook" 5 true true 80 8)
        [QueuedItem.mk "a/x.png" "x.png" none]
        (World.mk [("a/x.png", 100)] [NetOutcome.err] [] [])).1 = true ↔
      ("https://hook" ≠ "" ∧
        (∀ it ∈ [QueuedItem.mk "a/x.png" "x.png" none],
          fsExists (World.mk [("a/x.png", 100)] [NetOutcome.err] [] []).fs it.path = true) ∧
        sum_sizes_bytes (World.mk [("a/x.png", 100)] [NetOutcome.err] [] []).fs
          [QueuedItem.mk "a/x.png" "x.png" none] ≤ 25 * 1024 * 1024 ∧
        (World.mk [("a/x.png", 100)] [NetOutcome.err] [] []).net.headD NetOutcome.err
          = NetOutcome.status 200)) :=
  C6_transport_boolean (Config.mk "https://hook" 5 true true 80 8)
    (World.mk [("a/x.png", 100)] [NetOutcome.err] [] []) "a/x.png" "x.png" none
    [QueuedItem.mk "a/x.png" "x.png" none]

/-! ### C2: flush exactly at the threshold, remainder flushed at the end -/

theorem flush_wrap (cfg : Config) (output_dir : String)
    (ep : Option (List (String × String))) (F : PrevAcc) :
    ((preview_workflow_log output_dir ep
        (preview_flush_remaining cfg "enable" "enable" F)).evs.filterMap
          flush_size
      = F.evs.filterMap flush_size ++
        (if F.st.image_queue.length = 0 then []
         else [F.st.image_queue.length])) ∧
    (preview_workflow_log output_dir ep
        (preview_flush_remaining cfg "enable" "enable" F)).st.image_queue
      = [] := by
  by_cases hFq : F.st.image_queue = []
  · have hpfr : preview_flush_remaining cfg "enable" "enable" F = F := by
      unfold preview_flush_remaining
      rw [if_neg (fun h => h.2.2 hFq)]
    constructor
    · rw [hpfr, pwl_flush_filter, hFq]
      simp
    · rw [hpfr, pwl_st]
      exact hFq
  · have hne0 : F.st.image_queue.length ≠ 0 :=
      fun h => hFq (List.length_eq_zero.mp h)
    have hpfr : preview_flush_remaining cfg "enable" "enable" F
        = PrevAcc.mk (send_batch_to_discord cfg F.st F.w).1
            (send_batch_to_discord cfg F.st F.w).2.1
            (F.evs ++ (send_batch_to_discord cfg F.st F.w).2.2)
            F.results F.counter := by
      unfold preview_flush_remaining
      rw [if_pos ⟨rfl, rfl, hFq⟩]
    constructor
    · rw [hpfr, pwl_flush_filter]
      show (F.evs ++ (send_batch_to_discord cfg F.st F.w).2.2).filterMap
        flush_size = _
      rw [List.filterMap_append, sbd_flush_sizes cfg F.st F.w hFq, if_neg hne0]
    · rw [hpfr, pwl_st]
      exact sbd_clears cfg F.st F.w

/-- C2: with batching enabled and a configured webhook, starting from an
empty queue, an automatic flush of exactly `batch_size` items happens each
time the queue reaches the threshold, and whatever remains queued after the
loop is flushed before returning; so the flush sizes observed during
`preview_images` are `⌊n / batch_size⌋` full batches followed by one final
flush of `n mod batch_size` items when that remainder is nonzero, and the
queue ends empty. -/
theorem C2_flush_at_threshold (cfg : Config) (st : NodeState) (w : World)
    (images : List Nat) (pt : Option (List Nat)) (pr : Option String)
    (ep : Option (List (String × String)))
    (folder filename subfolder output_dir : String) (c0 : Nat)
    (hq : st.image_queue = []) (hbs : 0 < cfg.batch_size)
    (hurl : cfg.webhook_url ≠ "") :
    ((preview_images cfg st w images "enable" "enable" pt pr ep folder
        filename subfolder output_dir c0).evs.filterMap flush_size
      = List.replicate (images.length / cfg.batch_size) cfg.batch_size ++
        (if images.length % cfg.batch_size = 0 then []
         else [images.length % cfg.batch_size])) ∧
    (preview_images cfg st w images "enable" "enable" pt pr ep folder
        filename subfolder output_dir c0).st.image_queue = [] := by
  have h0 : (PrevAcc.mk st w [] [] c0).st.image_queue.length = 0 := by
    show st.image_queue.length = 0
    rw [hq]
    rfl
  obtain ⟨hlen, hflush⟩ := preview_fold_batch cfg folder filename subfolder ep
    hurl hbs images (PrevAcc.mk st w [] [] c0) (by rw [h0]; exact hbs)
  rw [h0, Nat.zero_add] at hlen hflush
  have hflush2 : (images.foldl (preview_step cfg folder filename subfolder
      "enable" "enable" ep) (PrevAcc.mk st w [] [] c0)).evs.filterMap
        flush_size
      = List.replicate (images.length / cfg.batch_size) cfg.batch_size := by
    rw [hflush]
    show ([] : List Event).filterMap flush_size ++ _ = _
    rw [List.filterMap_nil, List.nil_append]
  obtain ⟨hw1, hw2⟩ := flush_wrap cfg output_dir ep
    (images.foldl (preview_step cfg folder filename subfolder "enable"
      "enable" ep) (PrevAcc.mk st w [] [] c0))
  constructor
  · show (preview_workflow_log output_dir ep
      (preview_flush_remaining cfg "enable" "enable"
        (images.foldl (preview_step cfg folder filename subfolder "enable"
          "enable" ep) (PrevAcc.mk st w [] [] c0)))).evs.filterMap flush_size
      = _
    rw [hw1, hflush2, hlen]
  · show (preview_workflow_log output_dir ep
      (preview_flush_remaining cfg "enable" "enable"
        (images.foldl (preview_step cfg folder filename subfolder "enable"
          "enable" ep) (PrevAcc.mk st w [] [] c0)))).st.image_queue = []
    exact hw2

/-- C2 witness: seven images with threshold 5: one automatic flush of 5,
then the remaining 2 flushed at end of processing; the queue ends empty. -/
theorem C2_flush_at_threshold_witness :
    ((preview_images (Config.mk "https://example.invalid/hook" 5 true true
        80 8) (NodeState.mk [] "Ready") (World.mk [] [] [] [])
        [0, 0, 0, 0, 0, 0, 0] "enable" "enable" none none none
        "out" "ComfyUI" "" "tmp" 1).evs.filterMap flush_size = [5, 2]) ∧
    (preview_images (Config.mk "https://example.invalid/hook" 5 true true
        80 8) (NodeState.mk [] "Ready") (World.mk [] [] [] [])
        [0, 0, 0, 0, 0, 0, 0] "enable" "enable" none none none
        "out" "ComfyUI" "" "tmp" 1).st.image_queue = [] := by
  have h := C2_flush_at_threshold
    (Config.mk "https://example.invalid/hook" 5 true true 80 8)
    (NodeState.mk [] "Ready") (World.mk [] [] [] []) [0, 0, 0, 0, 0, 0, 0]
    none none none "out" "ComfyUI" "" "tmp" 1 rfl (by decide) (by decide)
  exact ⟨h.1.trans (by decide), h.2⟩

end SendToDiscord
